import Mathlib

/-! casadi: generic matrix tools.

A shallow embedding of `casadi/core/matrix/generic_matrix_tools.hpp`.

The header is generic over `MatType`; the primitive operations of that type
(shape, slicing, transpose, elementwise arithmetic, `diag`, the sparsity
counts, concatenation) live in other files of the library.  They are modelled
here on a sparse matrix with entries in a commutative ring: a shape and, for
every position, an optional stored entry (`none` is a structural zero, `some 0`
is a stored zero).  The functions of the header itself (`tril2symm`,
`triu2symm`, `cross`, `linspace`, `quad_form`, `sum_square`) are translated
statement by statement; what `linspace` leaves unguarded (a buffer of negative
length, a write outside the buffer, a division by zero) is reported as a fault.
-/

namespace casadi

/-- Failures raised by `casadi_assert_message` in the header, and the shape
errors of the primitive operations it calls. -/
inductive CasadiException where
  | crossInconsistentDimensions
  | crossNoDimensionOfLength3
  | crossBadDim
  | tril2symmShape
  | tril2symmSparsity
  | triu2symmShape
  | triu2symmSparsity
  | sliceOutOfBounds
  | dimensionMismatch
  | diagShape
  deriving DecidableEq, Repr

/-- Modelled from the spec: the concrete matrix type `MatType` (the
"MatrixLike" role).  `size1` is the number of rows, `size2` the number of
columns, `nz i j` the stored entry at row `i`, column `j`; `none` is a
structural zero.  Only positions inside the shape are ever read. -/
structure MatType (α : Type) where
  size1 : Nat
  size2 : Nat
  nz : Nat → Nat → Option α

namespace MatType

variable {α : Type}

/-- Modelled from the spec: the value at `(i, j)`; a structural zero reads as `0`. -/
def elem [Zero α] (a : MatType α) (i j : Nat) : α := (a.nz i j).getD 0

/-- Modelled from the spec: `isSquare()`, rows equal columns. -/
def isSquare (a : MatType α) : Bool := decide (a.size1 = a.size2)

/-- All positions `(i, j)` inside the shape of `a`, row by row. -/
def positions (a : MatType α) : List (Nat × Nat) :=
  (List.range a.size1).flatMap fun i => (List.range a.size2).map fun j => (i, j)

/-- Number of stored entries of `a` at the positions selected by `p`. -/
def countNZ (a : MatType α) (p : Nat → Nat → Bool) : Nat :=
  a.positions.countP fun ij => p ij.1 ij.2 && (a.nz ij.1 ij.2).isSome

/-- Modelled from the spec: `sizeU()`, the number of stored entries in the upper
triangular half, diagonal included (`i ≤ j`). -/
def sizeU (a : MatType α) : Nat := a.countNZ fun i j => decide (i ≤ j)

/-- Modelled from the spec: `sizeL()`, the number of stored entries in the lower
triangular half, diagonal included (`j ≤ i`). -/
def sizeL (a : MatType α) : Nat := a.countNZ fun i j => decide (j ≤ i)

/-- Modelled from the spec: `sizeD()`, the number of stored entries on the diagonal. -/
def sizeD (a : MatType α) : Nat := a.countNZ fun i j => decide (i = j)

/-- Number of stored entries strictly above the diagonal (`i < j`). -/
def strictUpperCount (a : MatType α) : Nat := a.countNZ fun i j => decide (i < j)

/-- Number of stored entries strictly below the diagonal (`j < i`). -/
def strictLowerCount (a : MatType α) : Nat := a.countNZ fun i j => decide (j < i)

/-- Modelled from the spec: `T()`, the transpose. -/
def T (a : MatType α) : MatType α :=
  { size1 := a.size2, size2 := a.size1, nz := fun i j => a.nz j i }

/-- Entry of an elementwise operation with `f 0 0 = 0`: stored as soon as one
operand is stored (union of the two patterns). -/
def unionEntry [Zero α] (f : α → α → α) (x y : Option α) : Option α :=
  match x, y with
  | none, none => none
  | _, _ => some (f (x.getD 0) (y.getD 0))

/-- Entry of an elementwise product: stored only where both operands are
stored (intersection of the two patterns). -/
def interEntry (f : α → α → α) (x y : Option α) : Option α :=
  match x, y with
  | some u, some v => some (f u v)
  | _, _ => none

/-- Modelled from the spec: `operator+`, elementwise, on equal shapes. -/
def add [Zero α] [Add α] (x y : MatType α) : Except CasadiException (MatType α) :=
  if x.size1 = y.size1 ∧ x.size2 = y.size2 then
    .ok { size1 := x.size1, size2 := x.size2,
          nz := fun i j => unionEntry (· + ·) (x.nz i j) (y.nz i j) }
  else .error .dimensionMismatch

/-- Modelled from the spec: binary `operator-`, elementwise, on equal shapes. -/
def sub [Zero α] [Sub α] (x y : MatType α) : Except CasadiException (MatType α) :=
  if x.size1 = y.size1 ∧ x.size2 = y.size2 then
    .ok { size1 := x.size1, size2 := x.size2,
          nz := fun i j => unionEntry (· - ·) (x.nz i j) (y.nz i j) }
  else .error .dimensionMismatch

/-- Modelled from the spec: `operator*`, the elementwise product, on equal shapes. -/
def mul [Mul α] (x y : MatType α) : Except CasadiException (MatType α) :=
  if x.size1 = y.size1 ∧ x.size2 = y.size2 then
    .ok { size1 := x.size1, size2 := x.size2,
          nz := fun i j => interEntry (· * ·) (x.nz i j) (y.nz i j) }
  else .error .dimensionMismatch

/-- Modelled from the spec: unary `operator-`. -/
def neg [Neg α] (x : MatType α) : MatType α :=
  { size1 := x.size1, size2 := x.size2, nz := fun i j => (x.nz i j).map (- ·) }

/-- Modelled from the spec: `diag` (extract or build).  On a square matrix it
returns the diagonal as a column vector; on a vector it builds the diagonal
matrix; any other shape is refused. -/
def diag (a : MatType α) : Except CasadiException (MatType α) :=
  if a.size1 = a.size2 then
    .ok { size1 := a.size1, size2 := 1,
          nz := fun i j => if j = 0 then a.nz i i else none }
  else if a.size2 = 1 then
    .ok { size1 := a.size1, size2 := a.size1,
          nz := fun i j => if i = j then a.nz i 0 else none }
  else if a.size1 = 1 then
    .ok { size1 := a.size2, size2 := a.size2,
          nz := fun i j => if i = j then a.nz 0 i else none }
  else .error .diagShape

/-- Modelled from the spec: the slice `a(i, ALL)`, row `i` as a `1 × size2` matrix. -/
def row (a : MatType α) (i : Nat) : Except CasadiException (MatType α) :=
  if i < a.size1 then
    .ok { size1 := 1, size2 := a.size2, nz := fun r c => if r = 0 then a.nz i c else none }
  else .error .sliceOutOfBounds

/-- Modelled from the spec: the slice `a(ALL, j)`, column `j` as a `size1 × 1` matrix. -/
def col (a : MatType α) (j : Nat) : Except CasadiException (MatType α) :=
  if j < a.size2 then
    .ok { size1 := a.size1, size2 := 1, nz := fun r c => if c = 0 then a.nz r j else none }
  else .error .sliceOutOfBounds

/-- Modelled from the spec: `vertcat`, vertical concatenation of a sequence of
matrices with the same number of columns. -/
def vertcat : List (MatType α) → Except CasadiException (MatType α)
  | [] => .ok { size1 := 0, size2 := 0, nz := fun _ _ => none }
  | [x] => .ok x
  | x :: y :: ys =>
    match vertcat (y :: ys) with
    | .error e => .error e
    | .ok r =>
      if x.size2 = r.size2 then
        .ok { size1 := x.size1 + r.size1, size2 := x.size2,
              nz := fun i j => if i < x.size1 then x.nz i j else r.nz (i - x.size1) j }
      else .error .dimensionMismatch

/-- Modelled from the spec: `horzcat`, horizontal concatenation of a sequence of
matrices with the same number of rows. -/
def horzcat : List (MatType α) → Except CasadiException (MatType α)
  | [] => .ok { size1 := 0, size2 := 0, nz := fun _ _ => none }
  | [x] => .ok x
  | x :: y :: ys =>
    match horzcat (y :: ys) with
    | .error e => .error e
    | .ok r =>
      if x.size1 = r.size1 then
        .ok { size1 := x.size1, size2 := x.size2 + r.size2,
              nz := fun i j => if j < x.size2 then x.nz i j else r.nz i (j - x.size2) }
      else .error .dimensionMismatch

/-- The stored entries of `a`, row by row (`none` is a structural zero). -/
def toLists (a : MatType α) : List (List (Option α)) :=
  (List.range a.size1).map fun i => (List.range a.size2).map fun j => a.nz i j

/-- Two matrices have the same shape and the same value at every position. -/
def sameValues [Zero α] (x y : MatType α) : Prop :=
  x.size1 = y.size1 ∧ x.size2 = y.size2 ∧
    ∀ i < x.size1, ∀ j < x.size2, x.elem i j = y.elem i j

/-- A matrix is symmetric: square, and equal in value to its transpose. -/
def isSymmetric [Zero α] (x : MatType α) : Prop :=
  x.size1 = x.size2 ∧ ∀ i < x.size1, ∀ j < x.size2, x.elem i j = x.elem j i

/-- Component `k` of a 3-vector: entry `(k, 0)` of a column, `(0, k)` of a row. -/
def comp [Zero α] (a : MatType α) (k : Nat) : α :=
  if a.size1 = 3 then a.elem k 0 else a.elem 0 k

/-- No stored entry strictly above the diagonal. -/
def noStrictUpper (a : MatType α) : Prop :=
  ∀ i < a.size1, ∀ j < a.size2, i < j → (a.nz i j).isSome = false

/-- No stored entry strictly below the diagonal. -/
def noStrictLower (a : MatType α) : Prop :=
  ∀ i < a.size1, ∀ j < a.size2, j < i → (a.nz i j).isSome = false

/-- The matrix `l` is the lower-triangular part of `s`, diagonal kept: same
shape, the values of `s` on and below the diagonal, zero above it. -/
def isLowerPartOf [Zero α] (l s : MatType α) : Prop :=
  l.size1 = s.size1 ∧ l.size2 = s.size2 ∧
    ∀ i < l.size1, ∀ j < l.size2, l.elem i j = if j ≤ i then s.elem i j else 0

/-- The matrix `u` is the upper-triangular part of `s`, diagonal kept: same
shape, the values of `s` on and above the diagonal, zero below it. -/
def isUpperPartOf [Zero α] (u s : MatType α) : Prop :=
  u.size1 = s.size1 ∧ u.size2 = s.size2 ∧
    ∀ i < u.size1, ∀ j < u.size2, u.elem i j = if i ≤ j then s.elem i j else 0

end MatType

open MatType

variable {α : Type}

/-- The header's `tril2symm`: both assertions, then `a + a.T() - diag(diag(a))`. -/
def tril2symm [Zero α] [Add α] [Sub α] (a : MatType α) : Except CasadiException (MatType α) :=
  if ¬ a.isSquare then .error .tril2symmShape
  else if ¬ ((a.sizeU : Int) - (a.sizeD : Int) = 0) then .error .tril2symmSparsity
  else do
    let s ← a.add a.T
    let d ← a.diag
    let dd ← d.diag
    s.sub dd

/-- The header's `triu2symm`: both assertions, then `a + a.T() - diag(diag(a))`. -/
def triu2symm [Zero α] [Add α] [Sub α] (a : MatType α) : Except CasadiException (MatType α) :=
  if ¬ a.isSquare then .error .triu2symmShape
  else if ¬ ((a.sizeL : Int) - (a.sizeD : Int) = 0) then .error .triu2symmSparsity
  else do
    let s ← a.add a.T
    let d ← a.diag
    let dd ← d.diag
    s.sub dd

/-- The header's `cross`: three assertions, the orientation flag `t`, the six
slices, the three components and the concatenation. -/
def cross [Zero α] [Sub α] [Mul α] (a b : MatType α) (dim : Int) :
    Except CasadiException (MatType α) :=
  if ¬ (a.size1 = b.size1 ∧ a.size2 = b.size2) then .error .crossInconsistentDimensions
  else if ¬ (a.size1 = 3 ∨ a.size2 = 3) then .error .crossNoDimensionOfLength3
  else if ¬ (dim = -1 ∨ dim = 1 ∨ dim = 2) then .error .crossBadDim
  else
    let t := decide (a.size1 = 3)
    let t := if dim = 1 then true else t
    let t := if dim = 2 then false else t
    do
      let a1 ← (if t then a.row 0 else a.col 0)
      let a2 ← (if t then a.row 1 else a.col 1)
      let a3 ← (if t then a.row 2 else a.col 2)
      let b1 ← (if t then b.row 0 else b.col 0)
      let b2 ← (if t then b.row 1 else b.col 1)
      let b3 ← (if t then b.row 2 else b.col 2)
      let r0 ← (← a2.mul b3).sub (← a3.mul b2)
      let r1 ← (← a3.mul b1).sub (← a1.mul b3)
      let r2 ← (← a1.mul b2).sub (← a2.mul b1)
      (if t then vertcat [r0, r1, r2] else horzcat [r0, r1, r2])

/-- Stored entry of a component `x*y - z*w` of the cross product. -/
def crossEntry [Zero α] [Sub α] [Mul α] (x y z w : Option α) : Option α :=
  unionEntry (· - ·) (interEntry (· * ·) x y) (interEntry (· * ·) z w)

/-- Modelled from the spec: `mul(x, y)`, the matrix product (the operator `*`
is the elementwise product `MatType.mul`).  It needs the columns of `x` to
match the rows of `y`; an entry is stored when some pair of factors is. -/
def mul [Zero α] [Add α] [Mul α] (x y : MatType α) : Except CasadiException (MatType α) :=
  if x.size2 = y.size1 then
    .ok { size1 := x.size1, size2 := y.size2,
          nz := fun i j =>
            if (List.range x.size2).any fun k => (x.nz i k).isSome && (y.nz k j).isSome then
              some ((List.range x.size2).map fun k => x.elem i k * y.elem k j).sum
            else none }
  else .error .dimensionMismatch

/-- Modelled from the spec: `sumAll`, the full-sum reduction, a `1 × 1` matrix
holding the sum of all values. -/
def MatType.sumAll [Zero α] [Add α] (x : MatType α) : MatType α :=
  { size1 := 1, size2 := 1,
    nz := fun _ _ =>
      some ((List.range x.size1).map fun i =>
        ((List.range x.size2).map fun j => x.elem i j).sum).sum }

/-- The header's `quad_form(X, A)`: `mul(X.T(), mul(A, X))`. -/
def quad_form [Zero α] [Add α] [Mul α] (X A : MatType α) :
    Except CasadiException (MatType α) := do
  let ax ← casadi.mul A X
  casadi.mul X.T ax

/-- The header's one-argument `quad_form(X)`: `mul(X.T(), X)`. -/
def quad_form1 [Zero α] [Add α] [Mul α] (X : MatType α) :
    Except CasadiException (MatType α) :=
  casadi.mul X.T X

/-- The header's `sum_square`: `sumAll(X*X)` with the elementwise product. -/
def sum_square [Zero α] [Add α] [Mul α] (X : MatType α) :
    Except CasadiException (MatType α) := do
  let xx ← X.mul X
  pure xx.sumAll

/-- What a call of `linspace` can run into: an exception of the library, the
failed construction of the buffer, or one of the two undefined operations the
header does not guard. -/
inductive Fault where
  | exception (e : CasadiException)
  | vectorLengthError
  | vectorIndexOutOfRange
  | divisionByZero
  deriving DecidableEq, Repr

/-- An exception of a primitive operation, seen from `linspace`. -/
def liftException {β : Type} : Except CasadiException β → Except Fault β
  | .ok x => .ok x
  | .error e => .error (.exception e)

/-- Modelled from the spec: `x / d` for an integer `d` (the integer becomes a
scalar and divides every stored entry); dividing by zero is undefined. -/
def MatType.divInt [Div α] [IntCast α] (x : MatType α) (d : Int) : Except Fault (MatType α) :=
  if d = 0 then .error .divisionByZero
  else .ok { size1 := x.size1, size2 := x.size2,
             nz := fun i j => (x.nz i j).map (· / (d : α)) }

/-- A default-constructed `MatType`: the empty `0 × 0` matrix. -/
def emptyMatrix : MatType α := { size1 := 0, size2 := 0, nz := fun _ _ => none }

/-- The buffer `std::vector<MatType> ret(nsteps)`: `nsteps` default elements.
A negative `int` count converts to a size beyond `max_size`, so the
constructor throws and no buffer exists; a count of zero gives an empty one. -/
def newVector (nsteps : Int) : Except Fault (List (MatType α)) :=
  if nsteps < 0 then .error .vectorLengthError
  else .ok (List.replicate nsteps.toNat emptyMatrix)

/-- The write `ret[i] = v`; outside `0 ≤ i < size` it is undefined. -/
def vectorSet (ret : List (MatType α)) (i : Int) (v : MatType α) :
    Except Fault (List (MatType α)) :=
  if 0 ≤ i ∧ i < (ret.length : Int) then .ok (ret.set i.toNat v)
  else .error .vectorIndexOutOfRange

/-- The read `ret[i]`; outside `0 ≤ i < size` it is undefined. -/
def vectorGet (ret : List (MatType α)) (i : Int) : Except Fault (MatType α) :=
  if 0 ≤ i ∧ i < (ret.length : Int) then .ok (ret.getD i.toNat emptyMatrix)
  else .error .vectorIndexOutOfRange

/-- The loop of `linspace`, `ret[i] = ret[i-1] + step`, over the indices it visits. -/
def linspaceLoop [Zero α] [Add α] (step : MatType α) :
    List Int → List (MatType α) → Except Fault (List (MatType α))
  | [], ret => .ok ret
  | i :: rest, ret =>
    match vectorGet ret (i - 1) with
    | .error e => .error e
    | .ok prev =>
      match liftException (prev.add step) with
      | .error e => .error e
      | .ok next =>
        match vectorSet ret i next with
        | .error e => .error e
        | .ok ret1 => linspaceLoop step rest ret1

/-- The indices visited by `for (int i=1; i<nsteps-1; ++i)`: `1, ..., nsteps-2`. -/
def loopIndices (nsteps : Int) : List Int :=
  (List.range' 1 (nsteps - 2).toNat).map Int.ofNat

/-- The header's `linspace`: the buffer, `ret[0] = a`, the step
`(b-a)/(nsteps-1)`, the loop, `ret[nsteps-1] = b`, and `vertcat(ret)`. -/
def linspace [Zero α] [Add α] [Sub α] [Div α] [IntCast α] (a b : MatType α) (nsteps : Int) :
    Except Fault (MatType α) := do
  let ret ← newVector nsteps
  let ret ← vectorSet ret 0 a
  let d ← liftException (b.sub a)
  let step ← d.divInt (nsteps - 1)
  let ret ← linspaceLoop step (loopIndices nsteps) ret
  let ret ← vectorSet ret (nsteps - 1) b
  liftException (vertcat ret)

/-- The value of `x + step` when the shapes agree. -/
def addStep [Zero α] [Add α] (step x : MatType α) : MatType α :=
  { size1 := x.size1, size2 := x.size2,
    nz := fun i j => unionEntry (· + ·) (x.nz i j) (step.nz i j) }

/-- The value of `(b - a) / d` when the shapes agree and `d` is not zero. -/
def stepMatrix [Zero α] [Sub α] [Div α] [IntCast α] (a b : MatType α) (d : Int) : MatType α :=
  { size1 := b.size1, size2 := b.size2,
    nz := fun i j => (unionEntry (· - ·) (b.nz i j) (a.nz i j)).map (· / (d : α)) }

/-- The samples `x, x + step, ..., x + r·step` in the order the loop writes them. -/
def sampleChain [Zero α] [Add α] (step : MatType α) : MatType α → Nat → List (MatType α)
  | x, 0 => [x]
  | x, r + 1 => x :: sampleChain step (addStep step x) r

/-- The value of `mul(x, y)` when the shapes conform. -/
def mulResult [Zero α] [Add α] [Mul α] (x y : MatType α) : MatType α :=
  { size1 := x.size1, size2 := y.size2,
    nz := fun i j =>
      if (List.range x.size2).any fun k => (x.nz i k).isSome && (y.nz k j).isSome then
        some ((List.range x.size2).map fun k => x.elem i k * y.elem k j).sum
      else none }

/-- The matrix `I` is an identity of size `n`: `n × n`, with value one on the
diagonal and zero elsewhere. -/
def isIdentity [Zero α] [One α] (I : MatType α) (n : Nat) : Prop :=
  I.size1 = n ∧ I.size2 = n ∧
    ∀ i < n, ∀ j < n, I.elem i j = if i = j then 1 else 0

/-- The `1 × 1` matrix holding the stored value `v`. -/
def scalar (v : α) : MatType α := { size1 := 1, size2 := 1, nz := fun _ _ => some v }

/-! ## Test matrices -/

/-- A lower-triangular test matrix `[[1, ·], [2, 3]]` with a structural zero at `(0, 1)`. -/
def exLower : MatType Int :=
  { size1 := 2, size2 := 2,
    nz := fun i j => if i = 0 ∧ j = 0 then some 1 else if i = 1 ∧ j = 0 then some 2
                     else if i = 1 ∧ j = 1 then some 3 else none }

/-- An upper-triangular test matrix `[[1, 2], [·, 3]]` with a structural zero at `(1, 0)`. -/
def exUpper : MatType Int :=
  { size1 := 2, size2 := 2,
    nz := fun i j => if i = 0 ∧ j = 0 then some 1 else if i = 0 ∧ j = 1 then some 2
                     else if i = 1 ∧ j = 1 then some 3 else none }

/-- The column vector `[1, 0, 0]`, all entries stored. -/
def exE1 : MatType Int :=
  { size1 := 3, size2 := 1, nz := fun i _ => some (if i = 0 then 1 else 0) }

/-- The column vector `[0, 1, 0]`, all entries stored. -/
def exE2 : MatType Int :=
  { size1 := 3, size2 := 1, nz := fun i _ => some (if i = 1 then 1 else 0) }

/-- The `3 × 3` matrix `[[1, 2, 3], [4, 5, 6], [7, 8, 10]]`, all entries stored. -/
def ex33a : MatType Int :=
  { size1 := 3, size2 := 3, nz := fun i j => some (3 * i + j + 1 + (if i = 2 ∧ j = 2 then 1 else 0)) }

/-- The `3 × 3` identity matrix, all entries stored. -/
def ex33b : MatType Int :=
  { size1 := 3, size2 := 3, nz := fun i j => some (if i = j then 1 else 0) }

/-- The `2 × 3` matrix `[[1, 2, 3], [4, 5, 6]]`, all entries stored. -/
def ex23a : MatType Int :=
  { size1 := 2, size2 := 3, nz := fun i j => some (3 * i + j + 1) }

/-- The `2 × 3` matrix `[[1, 0, 0], [0, 1, 0]]`, all entries stored. -/
def ex23b : MatType Int :=
  { size1 := 2, size2 := 3, nz := fun i j => some (if i = j then 1 else 0) }

/-- The column vector `[5, 7]`, all entries stored. -/
def ex21 : MatType Int :=
  { size1 := 2, size2 := 1, nz := fun i _ => some (if i = 0 then 5 else 7) }

/-- The `4 × 3` matrix `[[1, 2, 3], [4, 5, 6], [7, 8, 9], [10, 11, 12]]`, all entries stored. -/
def ex43a : MatType Int :=
  { size1 := 4, size2 := 3, nz := fun i j => some (3 * i + j + 1) }

/-- The `4 × 3` matrix with ones at `(0,0)`, `(1,1)`, `(2,2)` and zeros elsewhere, all stored. -/
def ex43b : MatType Int :=
  { size1 := 4, size2 := 3, nz := fun i j => some (if i = j then 1 else 0) }

/-- The `2 × 2` identity matrix with only its diagonal stored. -/
def exEye2 : MatType Int :=
  { size1 := 2, size2 := 2, nz := fun i j => if i = j then some 1 else none }

/-- The value returned by `tril2symm exLower` (`exLower` itself if the call fails). -/
def exLowerSymm : MatType Int :=
  match tril2symm exLower with
  | .ok r => r
  | .error _ => exLower

/-! ## Helper lemmas -/

theorem MatType.mem_positions (a : MatType α) (i j : Nat) :
    (i, j) ∈ a.positions ↔ i < a.size1 ∧ j < a.size2 := by
  simp [MatType.positions]

theorem MatType.countNZ_eq_zero_iff (a : MatType α) (p : Nat → Nat → Bool) :
    a.countNZ p = 0 ↔
      ∀ i < a.size1, ∀ j < a.size2, p i j = true → (a.nz i j).isSome = false := by
  unfold MatType.countNZ
  rw [List.countP_eq_zero]
  constructor
  · intro h i hi j hj hp
    have := h (i, j) ((a.mem_positions i j).2 ⟨hi, hj⟩)
    simpa [hp] using this
  · rintro h ⟨i, j⟩ hm
    obtain ⟨hi, hj⟩ := (a.mem_positions i j).1 hm
    have := h i hi j hj
    cases hp : p i j <;> simp_all

theorem countP_split {β : Type} (l : List β) (p q r : β → Bool)
    (h : ∀ x, (p x = true ↔ (q x = true ∨ r x = true)) ∧ ¬ (q x = true ∧ r x = true)) :
    l.countP p = l.countP q + l.countP r := by
  induction l with
  | nil => simp
  | cons x xs ih =>
    have hx := h x
    simp only [List.countP_cons, ih]
    cases hp : p x <;> cases hq : q x <;> cases hr : r x <;> simp_all <;> omega

theorem MatType.sizeU_eq (a : MatType α) : a.sizeU = a.sizeD + a.strictUpperCount := by
  unfold MatType.sizeU MatType.sizeD MatType.strictUpperCount MatType.countNZ
  apply countP_split
  rintro ⟨i, j⟩
  cases a.nz i j
  · simp
  · simp; omega

theorem MatType.sizeL_eq (a : MatType α) : a.sizeL = a.sizeD + a.strictLowerCount := by
  unfold MatType.sizeL MatType.sizeD MatType.strictLowerCount MatType.countNZ
  apply countP_split
  rintro ⟨i, j⟩
  cases a.nz i j
  · simp
  · simp; omega

theorem MatType.upperCheck_iff (a : MatType α) :
    ((a.sizeU : Int) - (a.sizeD : Int) = 0) ↔ a.noStrictUpper := by
  rw [a.sizeU_eq, MatType.noStrictUpper]
  have := a.countNZ_eq_zero_iff (fun i j => decide (i < j))
  simp only [decide_eq_true_eq] at this
  rw [← this, MatType.strictUpperCount]
  push_cast
  omega

theorem MatType.lowerCheck_iff (a : MatType α) :
    ((a.sizeL : Int) - (a.sizeD : Int) = 0) ↔ a.noStrictLower := by
  rw [a.sizeL_eq, MatType.noStrictLower]
  have := a.countNZ_eq_zero_iff (fun i j => decide (j < i))
  simp only [decide_eq_true_eq] at this
  rw [← this, MatType.strictLowerCount]
  push_cast
  omega

/-- The common return expression of `tril2symm` and `triu2symm` on a square
matrix: it succeeds, keeps the shape, and its stored entries are those of
`a + aᵀ` minus the diagonal of `a`. -/
theorem symm_expr_ok [Zero α] [Add α] [Sub α] (a : MatType α) (h : a.size1 = a.size2) :
    ∃ R : MatType α,
      (do
        let s ← a.add a.T
        let d ← a.diag
        let dd ← d.diag
        s.sub dd) = Except.ok R ∧
      R.size1 = a.size1 ∧ R.size2 = a.size2 ∧
      ∀ i < a.size1, ∀ j < a.size2,
        R.nz i j = unionEntry (· - ·) (unionEntry (· + ·) (a.nz i j) (a.nz j i))
          (if i = j then a.nz i i else none) := by
  obtain ⟨n, m, f⟩ := a
  simp only at h
  subst h
  by_cases h1 : n = 1
  · subst h1
    simp [MatType.add, MatType.T, MatType.diag, MatType.sub, bind, Except.bind]
  · simp [MatType.add, MatType.T, MatType.diag, MatType.sub, h1, bind, Except.bind]

theorem unionEntry_add_comm [AddCommGroup α] (x y : Option α) :
    unionEntry (· + ·) x y = unionEntry (· + ·) y x := by
  cases x <;> cases y <;> simp [MatType.unionEntry, add_comm]

theorem tril2symm_eq_of_checks [Zero α] [Add α] [Sub α] (a : MatType α)
    (hsq : a.size1 = a.size2) (hup : a.noStrictUpper) :
    tril2symm a = (do
        let s ← a.add a.T
        let d ← a.diag
        let dd ← d.diag
        s.sub dd) := by
  have h := (a.upperCheck_iff).2 hup
  unfold tril2symm
  simp [MatType.isSquare, hsq, h]

theorem triu2symm_eq_of_checks [Zero α] [Add α] [Sub α] (a : MatType α)
    (hsq : a.size1 = a.size2) (hlo : a.noStrictLower) :
    triu2symm a = (do
        let s ← a.add a.T
        let d ← a.diag
        let dd ← d.diag
        s.sub dd) := by
  have h := (a.lowerCheck_iff).2 hlo
  unfold triu2symm
  simp [MatType.isSquare, hsq, h]

theorem tril2symm_ok_inv [Zero α] [Add α] [Sub α] (a R : MatType α)
    (h : tril2symm a = .ok R) : a.size1 = a.size2 ∧ a.noStrictUpper := by
  unfold tril2symm at h
  by_cases hsq : a.size1 = a.size2
  · by_cases hup : (a.sizeU : Int) - (a.sizeD : Int) = 0
    · exact ⟨hsq, (a.upperCheck_iff).1 hup⟩
    · simp [MatType.isSquare, hsq, hup] at h
  · simp [MatType.isSquare, hsq] at h

theorem triu2symm_ok_inv [Zero α] [Add α] [Sub α] (a R : MatType α)
    (h : triu2symm a = .ok R) : a.size1 = a.size2 ∧ a.noStrictLower := by
  unfold triu2symm at h
  by_cases hsq : a.size1 = a.size2
  · by_cases hlo : (a.sizeL : Int) - (a.sizeD : Int) = 0
    · exact ⟨hsq, (a.lowerCheck_iff).1 hlo⟩
    · simp [MatType.isSquare, hsq, hlo] at h
  · simp [MatType.isSquare, hsq] at h

/-! ## Claims -/

/-- C1: for a square `L` with no stored entry strictly above the diagonal,
`tril2symm L` succeeds, keeps the shape, and its `(i, j)` value is `L(i, j)`
when `i ≥ j` and `L(j, i)` when `i < j` (the diagonal is kept once); hence it
equals every symmetric `S` whose lower-triangular part is `L`. -/
theorem tril2symm_mirrors_lower [AddGroup α] (L : MatType α)
    (hsq : L.size1 = L.size2) (hup : L.noStrictUpper) :
    ∃ R : MatType α, tril2symm L = .ok R ∧ R.size1 = L.size1 ∧ R.size2 = L.size2 ∧
      (∀ i < L.size1, ∀ j < L.size2,
        R.elem i j = if j ≤ i then L.elem i j else L.elem j i) ∧
      (∀ S : MatType α, S.isSymmetric → L.isLowerPartOf S → R.sameValues S) := by
  obtain ⟨R, hR, h1, h2, hnz⟩ := symm_expr_ok L hsq
  have hval : ∀ i < L.size1, ∀ j < L.size2,
      R.elem i j = if j ≤ i then L.elem i j else L.elem j i := by
    intro i hi j hj
    rw [MatType.elem, hnz i hi j hj]
    rcases Nat.lt_trichotomy i j with hij | hij | hij
    · have hz := hup i hi j hj hij
      have hne : ¬ i = j := by omega
      have hle : ¬ j ≤ i := by omega
      simp only [hne, hle, if_false, MatType.elem]
      cases hx : L.nz i j
      · cases hy : L.nz j i <;> simp [MatType.unionEntry]
      · simp [hx] at hz
    · subst hij
      simp only [le_refl, if_true, MatType.elem]
      cases hx : L.nz i i <;> simp [MatType.unionEntry]
    · have hz := hup j (hsq ▸ hj) i (hsq ▸ hi) hij
      have hne : ¬ i = j := by omega
      have hle : j ≤ i := by omega
      simp only [hne, hle, if_false, if_true, MatType.elem]
      cases hy : L.nz j i
      · cases hx : L.nz i j <;> simp [MatType.unionEntry]
      · simp [hy] at hz
  refine ⟨R, (tril2symm_eq_of_checks L hsq hup).trans hR, h1, h2, hval, ?_⟩
  rintro S ⟨_, hS⟩ ⟨e1, e2, hL⟩
  refine ⟨h1.trans e1, h2.trans e2, ?_⟩
  intro i hi j hj
  rw [h1] at hi
  rw [h2] at hj
  rw [hval i hi j hj]
  by_cases hle : j ≤ i
  · simp [hle, hL i hi j hj]
  · have hji : i ≤ j := by omega
    rw [if_neg hle, hL j (hsq ▸ hj) i (hsq ▸ hi), if_pos hji]
    exact hS j (e1 ▸ hsq ▸ hj) i (e2 ▸ hsq ▸ hi)

/-- C1, on the test matrix `[[1, ·], [2, 3]]`. -/
theorem tril2symm_mirrors_lower_witness :
    exLower.size1 = exLower.size2 ∧ exLower.noStrictUpper ∧
    ∃ R : MatType Int, tril2symm exLower = .ok R ∧ R.size1 = exLower.size1 ∧
      R.size2 = exLower.size2 ∧
      (∀ i < exLower.size1, ∀ j < exLower.size2,
        R.elem i j = if j ≤ i then exLower.elem i j else exLower.elem j i) ∧
      (∀ S : MatType Int, S.isSymmetric → exLower.isLowerPartOf S → R.sameValues S) :=
  ⟨rfl, by unfold MatType.noStrictUpper; decide,
    tril2symm_mirrors_lower exLower rfl (by unfold MatType.noStrictUpper; decide)⟩

/-- C2: for a square `U` with no stored entry strictly below the diagonal,
`triu2symm U` succeeds, keeps the shape, and its `(i, j)` value is `U(i, j)`
when `i ≤ j` and `U(j, i)` when `i > j`; hence it equals every symmetric `S`
whose upper-triangular part is `U`. -/
theorem triu2symm_mirrors_upper [AddGroup α] (U : MatType α)
    (hsq : U.size1 = U.size2) (hlo : U.noStrictLower) :
    ∃ R : MatType α, triu2symm U = .ok R ∧ R.size1 = U.size1 ∧ R.size2 = U.size2 ∧
      (∀ i < U.size1, ∀ j < U.size2,
        R.elem i j = if i ≤ j then U.elem i j else U.elem j i) ∧
      (∀ S : MatType α, S.isSymmetric → U.isUpperPartOf S → R.sameValues S) := by
  obtain ⟨R, hR, h1, h2, hnz⟩ := symm_expr_ok U hsq
  have hval : ∀ i < U.size1, ∀ j < U.size2,
      R.elem i j = if i ≤ j then U.elem i j else U.elem j i := by
    intro i hi j hj
    rw [MatType.elem, hnz i hi j hj]
    rcases Nat.lt_trichotomy i j with hij | hij | hij
    · have hz := hlo j (hsq ▸ hj) i (hsq ▸ hi) hij
      have hne : ¬ i = j := by omega
      have hle : i ≤ j := by omega
      simp only [hne, hle, if_false, if_true, MatType.elem]
      cases hy : U.nz j i
      · cases hx : U.nz i j <;> simp [MatType.unionEntry]
      · simp [hy] at hz
    · subst hij
      simp only [le_refl, if_true, MatType.elem]
      cases hx : U.nz i i <;> simp [MatType.unionEntry]
    · have hz := hlo i hi j hj hij
      have hne : ¬ i = j := by omega
      have hle : ¬ i ≤ j := by omega
      simp only [hne, hle, if_false, MatType.elem]
      cases hx : U.nz i j
      · cases hy : U.nz j i <;> simp [MatType.unionEntry]
      · simp [hx] at hz
  refine ⟨R, (triu2symm_eq_of_checks U hsq hlo).trans hR, h1, h2, hval, ?_⟩
  rintro S ⟨_, hS⟩ ⟨e1, e2, hU⟩
  refine ⟨h1.trans e1, h2.trans e2, ?_⟩
  intro i hi j hj
  rw [h1] at hi
  rw [h2] at hj
  rw [hval i hi j hj]
  by_cases hle : i ≤ j
  · simp [hle, hU i hi j hj]
  · have hji : j ≤ i := by omega
    rw [if_neg hle, hU j (hsq ▸ hj) i (hsq ▸ hi), if_pos hji]
    exact hS j (e1 ▸ hsq ▸ hj) i (e2 ▸ hsq ▸ hi)

/-- C2, on the test matrix `[[1, 2], [·, 3]]`. -/
theorem triu2symm_mirrors_upper_witness :
    exUpper.size1 = exUpper.size2 ∧ exUpper.noStrictLower ∧
    ∃ R : MatType Int, triu2symm exUpper = .ok R ∧ R.size1 = exUpper.size1 ∧
      R.size2 = exUpper.size2 ∧
      (∀ i < exUpper.size1, ∀ j < exUpper.size2,
        R.elem i j = if i ≤ j then exUpper.elem i j else exUpper.elem j i) ∧
      (∀ S : MatType Int, S.isSymmetric → exUpper.isUpperPartOf S → R.sameValues S) :=
  ⟨rfl, by unfold MatType.noStrictLower; decide,
    triu2symm_mirrors_upper exUpper rfl (by unfold MatType.noStrictLower; decide)⟩

/-- C3: `tril2symm a` fails exactly when `a` is not square or has a stored
entry strictly above the diagonal, and then with one of its own two
assertions; the test `sizeU - sizeD == 0` says that the number of stored
entries strictly above the diagonal is zero. -/
theorem tril2symm_error_iff [Zero α] [Add α] [Sub α] (a : MatType α) :
    ((∃ e, tril2symm a = .error e) ↔
      (a.size1 ≠ a.size2 ∨
        ∃ i < a.size1, ∃ j < a.size2, i < j ∧ (a.nz i j).isSome = true)) ∧
    (∀ e, tril2symm a = .error e →
      e = CasadiException.tril2symmShape ∨ e = CasadiException.tril2symmSparsity) ∧
    ((a.sizeU : Int) - (a.sizeD : Int) = (a.strictUpperCount : Int)) ∧
    (((a.sizeU : Int) - (a.sizeD : Int) = 0) ↔ a.strictUpperCount = 0) := by
  have hcnt : (a.sizeU : Int) - (a.sizeD : Int) = (a.strictUpperCount : Int) := by
    rw [a.sizeU_eq]; push_cast; omega
  have hex : (¬ a.noStrictUpper) ↔
      ∃ i < a.size1, ∃ j < a.size2, i < j ∧ (a.nz i j).isSome = true := by
    unfold MatType.noStrictUpper
    push_neg
    simp only [ne_eq, Bool.not_eq_false]
  refine ⟨?_, ?_, hcnt, by rw [hcnt]; omega⟩
  · by_cases hsq : a.size1 = a.size2
    · by_cases hup : a.noStrictUpper
      · obtain ⟨R, hR, -⟩ := symm_expr_ok a hsq
        rw [tril2symm_eq_of_checks a hsq hup, hR]
        constructor
        · rintro ⟨e, he⟩
          cases he
        · rintro (h | h)
          · exact absurd hsq h
          · exact absurd hup (hex.2 h)
      · have hchk : ¬ ((a.sizeU : Int) - (a.sizeD : Int) = 0) :=
          fun h => hup ((a.upperCheck_iff).1 h)
        constructor
        · intro _
          exact Or.inr (hex.1 hup)
        · intro _
          exact ⟨_, by unfold tril2symm; simp [MatType.isSquare, hsq, hchk]; rfl⟩
    · constructor
      · intro _
        exact Or.inl hsq
      · intro _
        exact ⟨_, by unfold tril2symm; simp [MatType.isSquare, hsq]; rfl⟩
  · intro e he
    by_cases hsq : a.size1 = a.size2
    · by_cases hchk : (a.sizeU : Int) - (a.sizeD : Int) = 0
      · obtain ⟨R, hR, -⟩ := symm_expr_ok a hsq
        rw [tril2symm_eq_of_checks a hsq ((a.upperCheck_iff).1 hchk), hR] at he
        cases he
      · unfold tril2symm at he
        simp [MatType.isSquare, hsq, hchk] at he
        exact Or.inr he.symm
    · unfold tril2symm at he
      simp [MatType.isSquare, hsq] at he
      exact Or.inl he.symm

/-- C4: `triu2symm a` fails exactly when `a` is not square or has a stored
entry strictly below the diagonal, and then with one of its own two
assertions; the test `sizeL - sizeD == 0` says that the number of stored
entries strictly below the diagonal is zero. -/
theorem triu2symm_error_iff [Zero α] [Add α] [Sub α] (a : MatType α) :
    ((∃ e, triu2symm a = .error e) ↔
      (a.size1 ≠ a.size2 ∨
        ∃ i < a.size1, ∃ j < a.size2, j < i ∧ (a.nz i j).isSome = true)) ∧
    (∀ e, triu2symm a = .error e →
      e = CasadiException.triu2symmShape ∨ e = CasadiException.triu2symmSparsity) ∧
    ((a.sizeL : Int) - (a.sizeD : Int) = (a.strictLowerCount : Int)) ∧
    (((a.sizeL : Int) - (a.sizeD : Int) = 0) ↔ a.strictLowerCount = 0) := by
  have hcnt : (a.sizeL : Int) - (a.sizeD : Int) = (a.strictLowerCount : Int) := by
    rw [a.sizeL_eq]; push_cast; omega
  have hex : (¬ a.noStrictLower) ↔
      ∃ i < a.size1, ∃ j < a.size2, j < i ∧ (a.nz i j).isSome = true := by
    unfold MatType.noStrictLower
    push_neg
    simp only [ne_eq, Bool.not_eq_false]
  refine ⟨?_, ?_, hcnt, by rw [hcnt]; omega⟩
  · by_cases hsq : a.size1 = a.size2
    · by_cases hlo : a.noStrictLower
      · obtain ⟨R, hR, -⟩ := symm_expr_ok a hsq
        rw [triu2symm_eq_of_checks a hsq hlo, hR]
        constructor
        · rintro ⟨e, he⟩
          cases he
        · rintro (h | h)
          · exact absurd hsq h
          · exact absurd hlo (hex.2 h)
      · have hchk : ¬ ((a.sizeL : Int) - (a.sizeD : Int) = 0) :=
          fun h => hlo ((a.lowerCheck_iff).1 h)
        constructor
        · intro _
          exact Or.inr (hex.1 hlo)
        · intro _
          exact ⟨_, by unfold triu2symm; simp [MatType.isSquare, hsq, hchk]; rfl⟩
    · constructor
      · intro _
        exact Or.inl hsq
      · intro _
        exact ⟨_, by unfold triu2symm; simp [MatType.isSquare, hsq]; rfl⟩
  · intro e he
    by_cases hsq : a.size1 = a.size2
    · by_cases hchk : (a.sizeL : Int) - (a.sizeD : Int) = 0
      · obtain ⟨R, hR, -⟩ := symm_expr_ok a hsq
        rw [triu2symm_eq_of_checks a hsq ((a.lowerCheck_iff).1 hchk), hR] at he
        cases he
      · unfold triu2symm at he
        simp [MatType.isSquare, hsq, hchk] at he
        exact Or.inr he.symm
    · unfold triu2symm at he
      simp [MatType.isSquare, hsq] at he
      exact Or.inl he.symm

/-- C5: a value returned by `tril2symm a` or by `triu2symm a` is symmetric: it
is square and its entry at `(i, j)` is its entry at `(j, i)`, stored pattern
included, so it has the same values as its transpose. -/
theorem symm_result_symmetric [AddCommGroup α] (a R : MatType α)
    (h : tril2symm a = .ok R ∨ triu2symm a = .ok R) :
    R.size1 = R.size2 ∧ (∀ i < R.size1, ∀ j < R.size2, R.nz i j = R.nz j i) ∧
      R.sameValues R.T := by
  have hsq : a.size1 = a.size2 := by
    rcases h with h | h
    · exact (tril2symm_ok_inv a R h).1
    · exact (triu2symm_ok_inv a R h).1
  obtain ⟨R', hR', h1, h2, hnz⟩ := symm_expr_ok a hsq
  have hRR : R = R' := by
    rcases h with h | h
    · rw [tril2symm_eq_of_checks a hsq (tril2symm_ok_inv a R h).2, hR'] at h
      exact (Except.ok.inj h).symm
    · rw [triu2symm_eq_of_checks a hsq (triu2symm_ok_inv a R h).2, hR'] at h
      exact (Except.ok.inj h).symm
  subst hRR
  have hs : R.size1 = R.size2 := by rw [h1, h2, hsq]
  have hsym : ∀ i < R.size1, ∀ j < R.size2, R.nz i j = R.nz j i := by
    intro i hi j hj
    rw [h1] at hi
    rw [h2] at hj
    rw [hnz i hi j hj, hnz j (hsq ▸ hj) i (hsq ▸ hi), unionEntry_add_comm (a.nz j i)]
    by_cases hij : i = j
    · subst hij; rfl
    · have hji : ¬ j = i := fun e => hij e.symm
      simp [hij, hji]
  refine ⟨hs, hsym, hs, hs.symm, ?_⟩
  intro i hi j hj
  simp only [MatType.elem, MatType.T]
  rw [hsym i hi j hj]

/-- C5, on the value `tril2symm` returns for the test matrix `[[1, ·], [2, 3]]`. -/
theorem symm_result_symmetric_witness :
    tril2symm exLower = .ok exLowerSymm ∧
    exLowerSymm.toLists = [[some 1, some 2], [some 2, some 3]] ∧
    exLowerSymm.size1 = exLowerSymm.size2 ∧
    (∀ i < exLowerSymm.size1, ∀ j < exLowerSymm.size2,
      exLowerSymm.nz i j = exLowerSymm.nz j i) ∧
    exLowerSymm.sameValues exLowerSymm.T :=
  ⟨rfl, by decide, symm_result_symmetric exLower exLowerSymm (Or.inl rfl)⟩


theorem cross_eq_rowwise [Zero α] [Sub α] [Mul α] (a b : MatType α) (dim : Int)
    (c1 : a.size1 = b.size1 ∧ a.size2 = b.size2) (c2 : a.size1 = 3 ∨ a.size2 = 3)
    (c3 : dim = -1 ∨ dim = 1 ∨ dim = 2)
    (ht : (if dim = 2 then false else if dim = 1 then true else decide (a.size1 = 3)) = true) :
    cross a b dim = (do
      let a1 ← a.row 0
      let a2 ← a.row 1
      let a3 ← a.row 2
      let b1 ← b.row 0
      let b2 ← b.row 1
      let b3 ← b.row 2
      let r0 ← (← a2.mul b3).sub (← a3.mul b2)
      let r1 ← (← a3.mul b1).sub (← a1.mul b3)
      let r2 ← (← a1.mul b2).sub (← a2.mul b1)
      vertcat [r0, r1, r2]) := by
  unfold cross
  rw [if_neg (not_not.2 c1), if_neg (not_not.2 c2), if_neg (not_not.2 c3)]
  dsimp only
  rw [ht]
  rfl

theorem cross_eq_colwise [Zero α] [Sub α] [Mul α] (a b : MatType α) (dim : Int)
    (c1 : a.size1 = b.size1 ∧ a.size2 = b.size2) (c2 : a.size1 = 3 ∨ a.size2 = 3)
    (c3 : dim = -1 ∨ dim = 1 ∨ dim = 2)
    (ht : (if dim = 2 then false else if dim = 1 then true else decide (a.size1 = 3)) = false) :
    cross a b dim = (do
      let a1 ← a.col 0
      let a2 ← a.col 1
      let a3 ← a.col 2
      let b1 ← b.col 0
      let b2 ← b.col 1
      let b3 ← b.col 2
      let r0 ← (← a2.mul b3).sub (← a3.mul b2)
      let r1 ← (← a3.mul b1).sub (← a1.mul b3)
      let r2 ← (← a1.mul b2).sub (← a2.mul b1)
      horzcat [r0, r1, r2]) := by
  unfold cross
  rw [if_neg (not_not.2 c1), if_neg (not_not.2 c2), if_neg (not_not.2 c3)]
  dsimp only
  rw [ht]
  rfl

theorem MatType.row_bind {β : Type} (n m : Nat) (f : Nat → Nat → Option α) (i : Nat) (h : i < n)
    (k : MatType α → Except CasadiException β) :
    (MatType.row { size1 := n, size2 := m, nz := f } i >>= k)
      = k { size1 := 1, size2 := m, nz := fun r c => if r = 0 then f i c else none } := by
  unfold MatType.row
  rw [if_pos h]
  rfl

theorem MatType.col_bind {β : Type} (n m : Nat) (f : Nat → Nat → Option α) (j : Nat) (h : j < m)
    (k : MatType α → Except CasadiException β) :
    (MatType.col { size1 := n, size2 := m, nz := f } j >>= k)
      = k { size1 := n, size2 := 1, nz := fun r c => if c = 0 then f r j else none } := by
  unfold MatType.col
  rw [if_pos h]
  rfl

theorem MatType.mul_bind {β : Type} [Mul α] (n m : Nat) (f g : Nat → Nat → Option α)
    (k : MatType α → Except CasadiException β) :
    (MatType.mul { size1 := n, size2 := m, nz := f } { size1 := n, size2 := m, nz := g } >>= k)
      = k { size1 := n, size2 := m, nz := fun i j => interEntry (· * ·) (f i j) (g i j) } := by
  unfold MatType.mul
  rw [if_pos ⟨rfl, rfl⟩]
  rfl

theorem MatType.sub_bind {β : Type} [Zero α] [Sub α] (n m : Nat) (f g : Nat → Nat → Option α)
    (k : MatType α → Except CasadiException β) :
    (MatType.sub { size1 := n, size2 := m, nz := f } { size1 := n, size2 := m, nz := g } >>= k)
      = k { size1 := n, size2 := m, nz := fun i j => unionEntry (· - ·) (f i j) (g i j) } := by
  unfold MatType.sub
  rw [if_pos ⟨rfl, rfl⟩]
  rfl

theorem MatType.vertcat_three (n m : Nat) (f g h : Nat → Nat → Option α) :
    MatType.vertcat [{ size1 := n, size2 := m, nz := f }, { size1 := n, size2 := m, nz := g },
        { size1 := n, size2 := m, nz := h }]
      = .ok { size1 := n + (n + n), size2 := m,
              nz := fun i j => if i < n then f i j
                else if i - n < n then g (i - n) j else h (i - n - n) j } := by
  have e2 : MatType.vertcat [{ size1 := n, size2 := m, nz := g },
        { size1 := n, size2 := m, nz := h }]
      = .ok { size1 := n + n, size2 := m,
              nz := fun i j => if i < n then g i j else h (i - n) j } := by
    simp only [MatType.vertcat, if_true]
  rw [MatType.vertcat, e2]
  simp only [if_true]

theorem MatType.horzcat_three (n m : Nat) (f g h : Nat → Nat → Option α) :
    MatType.horzcat [{ size1 := n, size2 := m, nz := f }, { size1 := n, size2 := m, nz := g },
        { size1 := n, size2 := m, nz := h }]
      = .ok { size1 := n, size2 := m + (m + m),
              nz := fun i j => if j < m then f i j
                else if j - m < m then g i (j - m) else h i (j - m - m) } := by
  have e2 : MatType.horzcat [{ size1 := n, size2 := m, nz := g },
        { size1 := n, size2 := m, nz := h }]
      = .ok { size1 := n, size2 := m + m,
              nz := fun i j => if j < m then g i j else h i (j - m) } := by
    simp only [MatType.horzcat, if_true]
  rw [MatType.horzcat, e2]
  simp only [if_true]

theorem cross_auto_rows [Zero α] [Sub α] [Mul α] (a b : MatType α)
    (h1 : a.size1 = b.size1) (h2 : a.size2 = b.size2) (h3 : a.size1 = 3) :
    ∃ R : MatType α, cross a b (-1) = .ok R ∧ R.size1 = 3 ∧ R.size2 = a.size2 ∧
      ∀ j < a.size2,
        R.nz 0 j = crossEntry (a.nz 1 j) (b.nz 2 j) (a.nz 2 j) (b.nz 1 j) ∧
        R.nz 1 j = crossEntry (a.nz 2 j) (b.nz 0 j) (a.nz 0 j) (b.nz 2 j) ∧
        R.nz 2 j = crossEntry (a.nz 0 j) (b.nz 1 j) (a.nz 1 j) (b.nz 0 j) := by
  obtain ⟨n, m, f⟩ := a
  obtain ⟨n', m', g⟩ := b
  dsimp only at h1 h2 h3
  subst h3
  subst h1
  subst h2
  rw [cross_eq_rowwise { size1 := 3, size2 := m, nz := f } { size1 := 3, size2 := m, nz := g }
    (-1) ⟨rfl, rfl⟩ (Or.inl rfl) (Or.inl rfl) rfl]
  rw [MatType.row_bind _ _ _ 0 (by decide), MatType.row_bind _ _ _ 1 (by decide),
    MatType.row_bind _ _ _ 2 (by decide), MatType.row_bind _ _ _ 0 (by decide),
    MatType.row_bind _ _ _ 1 (by decide), MatType.row_bind _ _ _ 2 (by decide)]
  rw [MatType.mul_bind, MatType.mul_bind, MatType.sub_bind,
    MatType.mul_bind, MatType.mul_bind, MatType.sub_bind,
    MatType.mul_bind, MatType.mul_bind, MatType.sub_bind, MatType.vertcat_three]
  exact ⟨_, rfl, rfl, rfl, fun j _ => ⟨rfl, rfl, rfl⟩⟩

theorem cross_auto_cols [Zero α] [Sub α] [Mul α] (a b : MatType α)
    (h1 : a.size1 = b.size1) (h2 : a.size2 = b.size2) (h3 : a.size1 ≠ 3)
    (h4 : a.size2 = 3) :
    ∃ R : MatType α, cross a b (-1) = .ok R ∧ R.size1 = a.size1 ∧ R.size2 = 3 ∧
      ∀ i < a.size1,
        R.nz i 0 = crossEntry (a.nz i 1) (b.nz i 2) (a.nz i 2) (b.nz i 1) ∧
        R.nz i 1 = crossEntry (a.nz i 2) (b.nz i 0) (a.nz i 0) (b.nz i 2) ∧
        R.nz i 2 = crossEntry (a.nz i 0) (b.nz i 1) (a.nz i 1) (b.nz i 0) := by
  obtain ⟨n, m, f⟩ := a
  obtain ⟨n', m', g⟩ := b
  dsimp only at h1 h2 h3 h4
  subst h4
  subst h1
  subst h2
  have ht : (if (-1 : Int) = 2 then false else if (-1 : Int) = 1 then true
      else decide ((MatType.mk n 3 f).size1 = 3)) = false := by
    show decide (n = 3) = false
    exact decide_eq_false h3
  rw [cross_eq_colwise { size1 := n, size2 := 3, nz := f } { size1 := n, size2 := 3, nz := g }
    (-1) ⟨rfl, rfl⟩ (Or.inr rfl) (Or.inl rfl) ht]
  rw [MatType.col_bind _ _ _ 0 (by decide), MatType.col_bind _ _ _ 1 (by decide),
    MatType.col_bind _ _ _ 2 (by decide), MatType.col_bind _ _ _ 0 (by decide),
    MatType.col_bind _ _ _ 1 (by decide), MatType.col_bind _ _ _ 2 (by decide)]
  rw [MatType.mul_bind, MatType.mul_bind, MatType.sub_bind,
    MatType.mul_bind, MatType.mul_bind, MatType.sub_bind,
    MatType.mul_bind, MatType.mul_bind, MatType.sub_bind, MatType.horzcat_three]
  exact ⟨_, rfl, rfl, rfl, fun i _ => ⟨rfl, rfl, rfl⟩⟩

theorem crossEntry_getD [Ring α] (x y z w : Option α) :
    (crossEntry x y z w).getD 0 = x.getD 0 * y.getD 0 - z.getD 0 * w.getD 0 := by
  cases x <;> cases y <;> cases z <;> cases w <;>
    simp [crossEntry, MatType.unionEntry, MatType.interEntry]

theorem crossEntry_neg_swap [CommRing α] (x y z w : Option α) :
    (crossEntry x y z w).getD 0 = - (crossEntry w z y x).getD 0 := by
  rw [crossEntry_getD, crossEntry_getD]
  ring

theorem cross_ok_inv [Zero α] [Sub α] [Mul α] (a b R : MatType α) (dim : Int)
    (h : cross a b dim = .ok R) :
    (a.size1 = b.size1 ∧ a.size2 = b.size2) ∧ (a.size1 = 3 ∨ a.size2 = 3) ∧
      (dim = -1 ∨ dim = 1 ∨ dim = 2) := by
  unfold cross at h
  by_cases c1 : a.size1 = b.size1 ∧ a.size2 = b.size2
  · by_cases c2 : a.size1 = 3 ∨ a.size2 = 3
    · by_cases c3 : dim = -1 ∨ dim = 1 ∨ dim = 2
      · exact ⟨c1, c2, c3⟩
      · rw [if_neg (not_not.2 c1), if_neg (not_not.2 c2), if_pos c3] at h
        cases h
    · rw [if_neg (not_not.2 c1), if_pos c2] at h
      cases h
  · rw [if_pos c1] at h
    cases h

/-- C6: for 3-vectors `a`, `b` of the same shape (`3 × 1` or `1 × 3`),
`cross a b` with `dim = -1` succeeds, has the shape of the inputs, and its
components are `(a2*b3 - a3*b2, a3*b1 - a1*b3, a1*b2 - a2*b1)`. -/
theorem cross_is_cross_product [Ring α] (a b : MatType α)
    (h1 : a.size1 = b.size1) (h2 : a.size2 = b.size2)
    (hv : (a.size1 = 3 ∧ a.size2 = 1) ∨ (a.size1 = 1 ∧ a.size2 = 3)) :
    ∃ R : MatType α, cross a b (-1) = .ok R ∧ R.size1 = a.size1 ∧ R.size2 = a.size2 ∧
      R.comp 0 = a.comp 1 * b.comp 2 - a.comp 2 * b.comp 1 ∧
      R.comp 1 = a.comp 2 * b.comp 0 - a.comp 0 * b.comp 2 ∧
      R.comp 2 = a.comp 0 * b.comp 1 - a.comp 1 * b.comp 0 := by
  rcases hv with ⟨r3, c1⟩ | ⟨r1, c3⟩
  · obtain ⟨R, hR, s1, s2, hnz⟩ := cross_auto_rows a b h1 h2 r3
    obtain ⟨e0, e1, e2⟩ := hnz 0 (by omega)
    have rb : b.size1 = 3 := h1 ▸ r3
    refine ⟨R, hR, s1.trans r3.symm, s2, ?_, ?_, ?_⟩ <;>
      simp only [MatType.comp, s1, r3, rb, if_true, MatType.elem, e0, e1, e2, crossEntry_getD]
  · have n3 : a.size1 ≠ 3 := by omega
    obtain ⟨R, hR, s1, s2, hnz⟩ := cross_auto_cols a b h1 h2 n3 c3
    obtain ⟨e0, e1, e2⟩ := hnz 0 (by omega)
    have nb : b.size1 ≠ 3 := h1 ▸ n3
    have nR : R.size1 ≠ 3 := by omega
    refine ⟨R, hR, s1, s2.trans c3.symm, ?_, ?_, ?_⟩ <;>
      simp only [MatType.comp, nR, n3, nb, if_false, MatType.elem, e0, e1, e2, crossEntry_getD]

/-- C6, on the unit vectors: `cross [1,0,0] [0,1,0] = [0,0,1]`. -/
theorem cross_is_cross_product_witness :
    (cross exE1 exE2 (-1)).toOption.map MatType.toLists
      = some [[some 0], [some 0], [some 1]] ∧
    ∃ R : MatType Int, cross exE1 exE2 (-1) = .ok R ∧ R.size1 = exE1.size1 ∧
      R.size2 = exE1.size2 ∧
      R.comp 0 = exE1.comp 1 * exE2.comp 2 - exE1.comp 2 * exE2.comp 1 ∧
      R.comp 1 = exE1.comp 2 * exE2.comp 0 - exE1.comp 0 * exE2.comp 2 ∧
      R.comp 2 = exE1.comp 0 * exE2.comp 1 - exE1.comp 1 * exE2.comp 0 :=
  ⟨by decide, cross_is_cross_product exE1 exE2 rfl rfl (Or.inl ⟨rfl, rfl⟩)⟩

/-- C7: `cross` is anti-commutative.  For `a`, `b` of equal shape with a
dimension of length 3 (in particular for 3-vectors) over a commutative ring,
both `cross a b` and `cross b a` succeed and `cross a b` has the values of
`-cross b a`. -/
theorem cross_anticomm [CommRing α] (a b : MatType α)
    (h1 : a.size1 = b.size1) (h2 : a.size2 = b.size2)
    (h3 : a.size1 = 3 ∨ a.size2 = 3) :
    ∃ R R' : MatType α, cross a b (-1) = .ok R ∧ cross b a (-1) = .ok R' ∧
      R.sameValues R'.neg := by
  have hneg : ∀ o : Option α, (o.map (- ·)).getD 0 = - o.getD 0 := by
    intro o; cases o <;> simp
  by_cases r3 : a.size1 = 3
  · obtain ⟨R, hR, s1, s2, hnz⟩ := cross_auto_rows a b h1 h2 r3
    obtain ⟨R', hR', s1', s2', hnz'⟩ := cross_auto_rows b a h1.symm h2.symm (h1 ▸ r3)
    refine ⟨R, R', hR, hR', ?_, ?_, ?_⟩
    · simp [MatType.neg, s1, s1']
    · simp [MatType.neg, s2, s2', h2]
    · intro i hi j hj
      rw [s2] at hj
      obtain ⟨e0, e1, e2⟩ := hnz j hj
      obtain ⟨e0', e1', e2'⟩ := hnz' j (h2 ▸ hj)
      have hi3 : i = 0 ∨ i = 1 ∨ i = 2 := by omega
      simp only [MatType.elem, MatType.neg, hneg]
      rcases hi3 with rfl | rfl | rfl
      · rw [e0, e0', crossEntry_neg_swap]
      · rw [e1, e1', crossEntry_neg_swap]
      · rw [e2, e2', crossEntry_neg_swap]
  · have c3 : a.size2 = 3 := by
      rcases h3 with h | h
      · exact absurd h r3
      · exact h
    obtain ⟨R, hR, s1, s2, hnz⟩ := cross_auto_cols a b h1 h2 r3 c3
    obtain ⟨R', hR', s1', s2', hnz'⟩ :=
      cross_auto_cols b a h1.symm h2.symm (h1 ▸ r3) (h2 ▸ c3)
    refine ⟨R, R', hR, hR', ?_, ?_, ?_⟩
    · simp [MatType.neg, s1, s1', h1]
    · simp [MatType.neg, s2, s2']
    · intro i hi j hj
      rw [s1] at hi
      obtain ⟨e0, e1, e2⟩ := hnz i hi
      obtain ⟨e0', e1', e2'⟩ := hnz' i (h1 ▸ hi)
      have hj3 : j = 0 ∨ j = 1 ∨ j = 2 := by omega
      simp only [MatType.elem, MatType.neg, hneg]
      rcases hj3 with rfl | rfl | rfl
      · rw [e0, e0', crossEntry_neg_swap]
      · rw [e1, e1', crossEntry_neg_swap]
      · rw [e2, e2', crossEntry_neg_swap]

/-- C7, on the unit vectors `[1,0,0]` and `[0,1,0]`. -/
theorem cross_anticomm_witness :
    (cross exE2 exE1 (-1)).toOption.map MatType.toLists
      = some [[some 0], [some 0], [some (-1)]] ∧
    ∃ R R' : MatType Int, cross exE1 exE2 (-1) = .ok R ∧ cross exE2 exE1 (-1) = .ok R' ∧
      R.sameValues R'.neg :=
  ⟨by decide, cross_anticomm exE1 exE2 rfl rfl (Or.inl rfl)⟩

/-- C8: `cross a b dim` fails, with one of its three assertions and without a
result, whenever the shapes of `a` and `b` differ, or neither the row count
nor the column count of `a` is 3, or `dim` is not one of `-1`, `1`, `2`. -/
theorem cross_precondition_errors [Zero α] [Sub α] [Mul α] (a b : MatType α) (dim : Int)
    (h : (a.size1 ≠ b.size1 ∨ a.size2 ≠ b.size2) ∨ (a.size1 ≠ 3 ∧ a.size2 ≠ 3) ∨
      (dim ≠ -1 ∧ dim ≠ 1 ∧ dim ≠ 2)) :
    (∃ e, cross a b dim = .error e ∧
      (e = CasadiException.crossInconsistentDimensions ∨
        e = CasadiException.crossNoDimensionOfLength3 ∨
        e = CasadiException.crossBadDim)) ∧
    ∀ R, cross a b dim ≠ .ok R := by
  have hno : ∀ R, cross a b dim ≠ .ok R := by
    intro R hR
    obtain ⟨⟨e1, e2⟩, c2, c3⟩ := cross_ok_inv a b R dim hR
    rcases h with (h | h) | ⟨h, h'⟩ | ⟨h, h', h''⟩
    · exact h e1
    · exact h e2
    · rcases c2 with c | c
      · exact h c
      · exact h' c
    · rcases c3 with c | c | c
      · exact h c
      · exact h' c
      · exact h'' c
  refine ⟨?_, hno⟩
  unfold cross
  by_cases c1 : a.size1 = b.size1 ∧ a.size2 = b.size2
  · by_cases c2 : a.size1 = 3 ∨ a.size2 = 3
    · by_cases c3 : dim = -1 ∨ dim = 1 ∨ dim = 2
      · exfalso
        rcases h with (h | h) | ⟨h, h'⟩ | ⟨h, h', h''⟩
        · exact h c1.1
        · exact h c1.2
        · rcases c2 with c | c
          · exact h c
          · exact h' c
        · rcases c3 with c | c | c
          · exact h c
          · exact h' c
          · exact h'' c
      · rw [if_neg (not_not.2 c1), if_neg (not_not.2 c2), if_pos c3]
        exact ⟨_, rfl, Or.inr (Or.inr rfl)⟩
    · rw [if_neg (not_not.2 c1), if_pos c2]
      exact ⟨_, rfl, Or.inr (Or.inl rfl)⟩
  · rw [if_pos c1]
    exact ⟨_, rfl, Or.inl rfl⟩

/-- C8, on two `2 × 1` vectors: no dimension of length 3. -/
theorem cross_precondition_errors_witness :
    (ex21.size1 ≠ 3 ∧ ex21.size2 ≠ 3) ∧
    cross ex21 ex21 (-1) = .error CasadiException.crossNoDimensionOfLength3 ∧
    (∃ e, cross ex21 ex21 (-1) = .error e ∧
      (e = CasadiException.crossInconsistentDimensions ∨
        e = CasadiException.crossNoDimensionOfLength3 ∨
        e = CasadiException.crossBadDim)) ∧
    ∀ R, cross ex21 ex21 (-1) ≠ .ok R :=
  ⟨by decide, rfl,
    cross_precondition_errors ex21 ex21 (-1) (Or.inr (Or.inl (by decide)))⟩

/-- C9, refuted: two `3 × 3` inputs of equal shape, where not exactly one of
the dimensions is 3, are accepted by `cross` and give a `3 × 3` result. -/
theorem cross_accepts_3x3 :
    ex33a.size1 = ex33b.size1 ∧ ex33a.size2 = ex33b.size2 ∧
    ¬ ((ex33a.size1 = 3 ∧ ex33a.size2 ≠ 3) ∨ (ex33a.size1 ≠ 3 ∧ ex33a.size2 = 3)) ∧
    (cross ex33a ex33b (-1)).toOption.map MatType.toLists
      = some [[some 0, some (-8), some 6], [some 7, some 0, some (-3)],
              [some (-4), some 2, some 0]] := by
  decide

/-- C9, amended: for inputs of equal shape, `cross a b` (with `dim = -1`) is
accepted exactly when at least one of the dimensions of `a` is 3; in
particular a pair of `3 × 3` inputs is accepted. -/
theorem cross_accepted_iff [Zero α] [Sub α] [Mul α] (a b : MatType α)
    (h1 : a.size1 = b.size1) (h2 : a.size2 = b.size2) :
    (∃ R, cross a b (-1) = .ok R) ↔ (a.size1 = 3 ∨ a.size2 = 3) := by
  constructor
  · rintro ⟨R, hR⟩
    exact (cross_ok_inv a b R (-1) hR).2.1
  · intro h3
    by_cases r3 : a.size1 = 3
    · obtain ⟨R, hR, -⟩ := cross_auto_rows a b h1 h2 r3
      exact ⟨R, hR⟩
    · have c3 : a.size2 = 3 := by
        rcases h3 with h | h
        · exact absurd h r3
        · exact h
      obtain ⟨R, hR, -⟩ := cross_auto_cols a b h1 h2 r3 c3
      exact ⟨R, hR⟩

/-- C9, amended, on a pair of `3 × 3` inputs: accepted. -/
theorem cross_accepted_iff_witness :
    (ex33a.size1 = 3 ∧ ex33a.size2 = 3) ∧ ∃ R, cross ex33a ex33b (-1) = .ok R :=
  ⟨⟨rfl, rfl⟩, (cross_accepted_iff ex33a ex33b rfl rfl).2 (Or.inl rfl)⟩

/-- C10: with `dim = -1`, for `a`, `b` of equal shape with a dimension of
length 3, `cross` succeeds and the result has the shape of `a`; when `a` has
3 rows (the `3 × 3` case included) it works on rows 0, 1, 2, so that every
column of the result is the cross product of the matching columns of `a` and
`b`; otherwise it works on columns 0, 1, 2, so that every row of the result is
the cross product of the matching rows. -/
theorem cross_auto_orientation [Ring α] (a b : MatType α)
    (h1 : a.size1 = b.size1) (h2 : a.size2 = b.size2)
    (h3 : a.size1 = 3 ∨ a.size2 = 3) :
    ∃ R : MatType α, cross a b (-1) = .ok R ∧ R.size1 = a.size1 ∧ R.size2 = a.size2 ∧
      (a.size1 = 3 → ∀ j < a.size2,
        R.elem 0 j = a.elem 1 j * b.elem 2 j - a.elem 2 j * b.elem 1 j ∧
        R.elem 1 j = a.elem 2 j * b.elem 0 j - a.elem 0 j * b.elem 2 j ∧
        R.elem 2 j = a.elem 0 j * b.elem 1 j - a.elem 1 j * b.elem 0 j) ∧
      (a.size1 ≠ 3 → ∀ i < a.size1,
        R.elem i 0 = a.elem i 1 * b.elem i 2 - a.elem i 2 * b.elem i 1 ∧
        R.elem i 1 = a.elem i 2 * b.elem i 0 - a.elem i 0 * b.elem i 2 ∧
        R.elem i 2 = a.elem i 0 * b.elem i 1 - a.elem i 1 * b.elem i 0) := by
  by_cases r3 : a.size1 = 3
  · obtain ⟨R, hR, s1, s2, hnz⟩ := cross_auto_rows a b h1 h2 r3
    refine ⟨R, hR, s1.trans r3.symm, s2, ?_, fun h => absurd r3 h⟩
    intro _ j hj
    obtain ⟨e0, e1, e2⟩ := hnz j hj
    simp only [MatType.elem, e0, e1, e2, crossEntry_getD, and_self]
  · have c3 : a.size2 = 3 := by
      rcases h3 with h | h
      · exact absurd h r3
      · exact h
    obtain ⟨R, hR, s1, s2, hnz⟩ := cross_auto_cols a b h1 h2 r3 c3
    refine ⟨R, hR, s1, s2.trans c3.symm, fun h => absurd h r3, ?_⟩
    intro _ i hi
    obtain ⟨e0, e1, e2⟩ := hnz i hi
    simp only [MatType.elem, e0, e1, e2, crossEntry_getD, and_self]

/-- C10, on a pair of `3 × 3` inputs (row-wise) and on their `2 × 3` top parts
(column-wise). -/
theorem cross_auto_orientation_witness :
    (cross ex23a ex23b (-1)).toOption.map MatType.toLists
      = some [[some 0, some 3, some (-2)], [some (-6), some 0, some 4]] ∧
    ∃ R : MatType Int, cross ex33a ex33b (-1) = .ok R ∧ R.size1 = ex33a.size1 ∧
      R.size2 = ex33a.size2 ∧
      (ex33a.size1 = 3 → ∀ j < ex33a.size2,
        R.elem 0 j = ex33a.elem 1 j * ex33b.elem 2 j - ex33a.elem 2 j * ex33b.elem 1 j ∧
        R.elem 1 j = ex33a.elem 2 j * ex33b.elem 0 j - ex33a.elem 0 j * ex33b.elem 2 j ∧
        R.elem 2 j = ex33a.elem 0 j * ex33b.elem 1 j - ex33a.elem 1 j * ex33b.elem 0 j) ∧
      (ex33a.size1 ≠ 3 → ∀ i < ex33a.size1,
        R.elem i 0 = ex33a.elem i 1 * ex33b.elem i 2 - ex33a.elem i 2 * ex33b.elem i 1 ∧
        R.elem i 1 = ex33a.elem i 2 * ex33b.elem i 0 - ex33a.elem i 0 * ex33b.elem i 2 ∧
        R.elem i 2 = ex33a.elem i 0 * ex33b.elem i 1 - ex33a.elem i 1 * ex33b.elem i 0) :=
  ⟨by decide, cross_auto_orientation ex33a ex33b rfl rfl (Or.inl rfl)⟩

/-! ## linspace -/

theorem bind_ok_eq {ε β γ : Type} (x : β) (f : β → Except ε γ) :
    (Except.ok x >>= f) = f x := rfl

theorem loopIndices_add_two (k : Nat) :
    loopIndices ((k : Int) + 2) = (List.range' 1 k).map Int.ofNat := by
  unfold loopIndices
  have h : ((k : Int) + 2 - 2).toNat = k := by omega
  rw [h]

theorem vectorGet_append {α : Type} (P : List (MatType α)) (x : MatType α)
    (Q : List (MatType α)) :
    vectorGet (P ++ x :: Q) (P.length : Int) = .ok x := by
  unfold vectorGet
  rw [if_pos ⟨by omega, by simp⟩]
  rw [Int.toNat_ofNat]
  induction P with
  | nil => rfl
  | cons p P ih => simpa using ih

theorem vectorSet_append {α : Type} (P : List (MatType α)) (x v : MatType α)
    (Q : List (MatType α)) :
    vectorSet (P ++ x :: Q) (P.length : Int) v = .ok (P ++ v :: Q) := by
  unfold vectorSet
  rw [if_pos ⟨by omega, by simp⟩]
  simp

theorem add_eq_addStep [Zero α] [Add α] (x step : MatType α)
    (h1 : x.size1 = step.size1) (h2 : x.size2 = step.size2) :
    x.add step = .ok (addStep step x) := by
  unfold MatType.add
  rw [if_pos ⟨h1, h2⟩]
  rfl

theorem linspaceLoop_run [Zero α] [Add α] (step : MatType α) :
    ∀ (r : Nat) (P : List (MatType α)) (x : MatType α) (Q : List (MatType α)),
      x.size1 = step.size1 → x.size2 = step.size2 →
      linspaceLoop step ((List.range' (P.length + 1) r).map Int.ofNat)
          (P ++ x :: (List.replicate r emptyMatrix ++ Q))
        = .ok (P ++ (sampleChain step x r ++ Q)) := by
  intro r
  induction r with
  | zero =>
    intro P x Q _ _
    rfl
  | succ r ih =>
    intro P x Q h1 h2
    have hget : vectorGet (P ++ x :: (List.replicate (r + 1) emptyMatrix ++ Q))
        (((P.length + 1 : Nat) : Int) - 1) = .ok x := by
      have e : (((P.length + 1 : Nat) : Int) - 1) = (P.length : Int) := by omega
      rw [e]
      exact vectorGet_append P x _
    have hset : vectorSet (P ++ x :: (List.replicate (r + 1) emptyMatrix ++ Q))
        ((P.length + 1 : Nat) : Int) (addStep step x)
        = .ok ((P ++ [x]) ++ addStep step x :: (List.replicate r emptyMatrix ++ Q)) := by
      have e := vectorSet_append (P ++ [x]) emptyMatrix (addStep step x)
        (List.replicate r emptyMatrix ++ Q)
      simpa [List.replicate_succ] using e
    have hrec := ih (P ++ [x]) (addStep step x) Q h1 h2
    rw [List.length_append, List.length_singleton] at hrec
    rw [List.range'_succ, List.map_cons, linspaceLoop]
    simp only [Int.ofNat_eq_coe]
    rw [hget]
    simp only []
    rw [add_eq_addStep x step h1 h2]
    simp only [liftException]
    rw [hset]
    simp only []
    rw [hrec]
    simp [sampleChain]

theorem sampleChain_length [Zero α] [Add α] (step : MatType α) :
    ∀ (r : Nat) (x : MatType α), (sampleChain step x r).length = r + 1 := by
  intro r
  induction r with
  | zero => intro x; rfl
  | succ r ih => intro x; simp [sampleChain, ih]

theorem sampleChain_shape [Zero α] [Add α] (step : MatType α) :
    ∀ (r : Nat) (x y : MatType α), y ∈ sampleChain step x r →
      y.size1 = x.size1 ∧ y.size2 = x.size2 := by
  intro r
  induction r with
  | zero =>
    intro x y hy
    simp only [sampleChain, List.mem_singleton] at hy
    subst hy
    exact ⟨rfl, rfl⟩
  | succ r ih =>
    intro x y hy
    simp only [sampleChain, List.mem_cons] at hy
    rcases hy with hy | hy
    · subst hy
      exact ⟨rfl, rfl⟩
    · exact ih (addStep step x) y hy

theorem sampleChain_getD [Zero α] [Add α] (step : MatType α) :
    ∀ (r : Nat) (x : MatType α) (Q : List (MatType α)) (i : Nat), i ≤ r →
      (sampleChain step x r ++ Q).getD i emptyMatrix = (addStep step)^[i] x := by
  intro r
  induction r with
  | zero =>
    intro x Q i hi
    have : i = 0 := by omega
    subst this
    rfl
  | succ r ih =>
    intro x Q i hi
    cases i with
    | zero => rfl
    | succ i =>
      have := ih (addStep step x) Q i (by omega)
      simpa [sampleChain] using this

theorem sampleChain_getD_last [Zero α] [Add α] (step b : MatType α) :
    ∀ (r : Nat) (x : MatType α),
      (sampleChain step x r ++ [b]).getD (r + 1) emptyMatrix = b := by
  intro r
  induction r with
  | zero => intro x; rfl
  | succ r ih =>
    intro x
    have := ih (addStep step x)
    simpa [sampleChain] using this

theorem vertcat_scalars :
    ∀ (L : List (MatType α)), L ≠ [] → (∀ y ∈ L, y.size1 = 1 ∧ y.size2 = 1) →
      ∃ R : MatType α, vertcat L = .ok R ∧ R.size1 = L.length ∧ R.size2 = 1 ∧
        ∀ i < L.length, ∀ j, R.nz i j = (L.getD i emptyMatrix).nz 0 j := by
  intro L
  induction L with
  | nil => intro h; exact absurd rfl h
  | cons x xs ih =>
    intro _ hall
    have hx := hall x (List.mem_cons_self x xs)
    cases xs with
    | nil =>
      refine ⟨x, rfl, hx.1, hx.2, ?_⟩
      intro i hi j
      have : i = 0 := by simpa using hi
      subst this
      rfl
    | cons y ys =>
      obtain ⟨R, hR, s1, s2, hnz⟩ := ih (List.cons_ne_nil y ys)
        (fun z hz => hall z (List.mem_cons_of_mem x hz))
      refine ⟨{ size1 := x.size1 + R.size1, size2 := x.size2,
                nz := fun i j => if i < x.size1 then x.nz i j else R.nz (i - x.size1) j },
        ?_, ?_, hx.2, ?_⟩
      · rw [MatType.vertcat, hR]
        simp only []
        rw [if_pos (hx.2.trans s2.symm)]
      · simp only [s1, hx.1, List.length_cons]
        omega
      · intro i hi j
        cases i with
        | zero => simp [hx.1]
        | succ i =>
          have hi2 : i < (y :: ys).length := by simpa using hi
          simp [hx.1, hnz i hi2 j]

theorem sub_eq_ok [Zero α] [Sub α] (x y : MatType α)
    (h1 : x.size1 = y.size1) (h2 : x.size2 = y.size2) :
    x.sub y = .ok { size1 := x.size1, size2 := x.size2,
                    nz := fun i j => unionEntry (· - ·) (x.nz i j) (y.nz i j) } := by
  unfold MatType.sub
  rw [if_pos ⟨h1, h2⟩]

theorem newVector_add_two (k : Nat) :
    (newVector ((k : Int) + 2) : Except Fault (List (MatType α)))
      = .ok (emptyMatrix :: (List.replicate k emptyMatrix ++ [emptyMatrix])) := by
  unfold newVector
  have h : ((k : Int) + 2).toNat = (k + 1) + 1 := by omega
  rw [if_neg (by omega), h, List.replicate_succ, List.replicate_succ']

theorem linspace_eq_vertcat [Zero α] [Add α] [Sub α] [Div α] [IntCast α] (a b : MatType α)
    (k : Nat) (h1 : a.size1 = b.size1) (h2 : a.size2 = b.size2) :
    linspace a b ((k : Int) + 2)
      = liftException (vertcat (sampleChain (stepMatrix a b ((k : Int) + 2 - 1)) a k ++ [b])) := by
  have hstep1 : a.size1 = (stepMatrix a b ((k : Int) + 2 - 1)).size1 := h1
  have hstep2 : a.size2 = (stepMatrix a b ((k : Int) + 2 - 1)).size2 := h2
  have h0 : vectorSet (emptyMatrix :: (List.replicate k emptyMatrix ++ [emptyMatrix])) 0 a
      = .ok (a :: (List.replicate k emptyMatrix ++ [emptyMatrix])) :=
    vectorSet_append [] emptyMatrix a _
  have hsub := sub_eq_ok b a h1.symm h2.symm
  have hdiv : MatType.divInt
        (MatType.mk b.size1 b.size2 fun i j => unionEntry (· - ·) (b.nz i j) (a.nz i j))
        ((k : Int) + 2 - 1)
      = .ok (stepMatrix a b ((k : Int) + 2 - 1)) := by
    unfold MatType.divInt
    rw [if_neg (by omega)]
    rfl
  have hloop : linspaceLoop (stepMatrix a b ((k : Int) + 2 - 1)) (loopIndices ((k : Int) + 2))
      (a :: (List.replicate k emptyMatrix ++ [emptyMatrix]))
      = .ok (sampleChain (stepMatrix a b ((k : Int) + 2 - 1)) a k ++ [emptyMatrix]) := by
    rw [loopIndices_add_two]
    exact linspaceLoop_run _ k [] a [emptyMatrix] hstep1 hstep2
  have hlast : vectorSet (sampleChain (stepMatrix a b ((k : Int) + 2 - 1)) a k ++ [emptyMatrix])
      ((k : Int) + 2 - 1) b
      = .ok (sampleChain (stepMatrix a b ((k : Int) + 2 - 1)) a k ++ [b]) := by
    have h := vectorSet_append (sampleChain (stepMatrix a b ((k : Int) + 2 - 1)) a k)
      emptyMatrix b []
    have e : (((k + 1 : Nat) : Int)) = (k : Int) + 2 - 1 := by omega
    rw [sampleChain_length, e] at h
    exact h
  unfold linspace
  rw [newVector_add_two, bind_ok_eq, h0, bind_ok_eq, hsub]
  simp only [liftException]
  rw [bind_ok_eq, hdiv, bind_ok_eq, hloop, bind_ok_eq, hlast, bind_ok_eq]

theorem linspace_scalars_run [Zero α] [Add α] [Sub α] [Div α] [IntCast α] (a b : MatType α)
    (k : Nat) (ha : a.size1 = 1 ∧ a.size2 = 1) (hb : b.size1 = 1 ∧ b.size2 = 1) :
    ∃ R : MatType α, linspace a b ((k : Int) + 2) = .ok R ∧ R.size1 = k + 2 ∧ R.size2 = 1 ∧
      (∀ i ≤ k, R.nz i 0 = ((addStep (stepMatrix a b ((k : Int) + 2 - 1)))^[i] a).nz 0 0) ∧
      R.nz (k + 1) 0 = b.nz 0 0 := by
  have hall : ∀ y ∈ sampleChain (stepMatrix a b ((k : Int) + 2 - 1)) a k ++ [b],
      y.size1 = 1 ∧ y.size2 = 1 := by
    intro y hy
    rcases List.mem_append.1 hy with h | h
    · obtain ⟨e1, e2⟩ := sampleChain_shape _ k a y h
      exact ⟨e1.trans ha.1, e2.trans ha.2⟩
    · rw [List.mem_singleton.1 h]
      exact hb
  obtain ⟨R, hR, s1, s2, hnz⟩ := vertcat_scalars
    (sampleChain (stepMatrix a b ((k : Int) + 2 - 1)) a k ++ [b])
    (by simp) hall
  have hlen : (sampleChain (stepMatrix a b ((k : Int) + 2 - 1)) a k ++ [b]).length = k + 2 := by
    rw [List.length_append, sampleChain_length]
    rfl
  refine ⟨R, ?_, s1.trans hlen, s2, ?_, ?_⟩
  · rw [linspace_eq_vertcat a b k (ha.1.trans hb.1.symm) (ha.2.trans hb.2.symm), hR]
    rfl
  · intro i hi
    rw [hnz i (by omega) 0, sampleChain_getD _ k a [b] i hi]
  · rw [hnz (k + 1) (by omega) 0, sampleChain_getD_last]

theorem addStep_iterate_elem [Semiring α] (step x : MatType α) (r c : Nat) :
    ∀ i : Nat, ((addStep step)^[i] x).elem r c = x.elem r c + (i : α) * step.elem r c := by
  intro i
  induction i with
  | zero => simp
  | succ i ih =>
    rw [Function.iterate_succ_apply']
    have h : ∀ y : MatType α, (addStep step y).elem r c = y.elem r c + step.elem r c := by
      intro y
      simp only [MatType.elem, addStep]
      cases y.nz r c <;> cases step.nz r c <;> simp [MatType.unionEntry]
    rw [h, ih]
    push_cast
    rw [add_mul, one_mul, add_assoc]

theorem stepMatrix_elem [DivisionRing α] (a b : MatType α) (d : Int) (r c : Nat) :
    (stepMatrix a b d).elem r c = (b.elem r c - a.elem r c) / (d : α) := by
  simp only [MatType.elem, stepMatrix]
  cases b.nz r c <;> cases a.nz r c <;> simp [MatType.unionEntry]

/-- C11: for scalars `a`, `b` and `n ≥ 2`, `linspace a b n` returns exactly `n`
samples in one column; the first is `a` and the last is `b`, stored as given
and not computed from the step. -/
theorem linspace_endpoints [Zero α] [Add α] [Sub α] [Div α] [IntCast α] (a b : MatType α)
    (n : Int) (hn : 2 ≤ n) (ha : a.size1 = 1 ∧ a.size2 = 1) (hb : b.size1 = 1 ∧ b.size2 = 1) :
    ∃ R : MatType α, linspace a b n = .ok R ∧ (R.size1 : Int) = n ∧ R.size2 = 1 ∧
      R.nz 0 0 = a.nz 0 0 ∧ R.nz (n - 1).toNat 0 = b.nz 0 0 := by
  obtain ⟨k, rfl⟩ : ∃ k : Nat, n = (k : Int) + 2 := ⟨(n - 2).toNat, by omega⟩
  obtain ⟨R, hR, s1, s2, hmid, hlast⟩ := linspace_scalars_run a b k ha hb
  refine ⟨R, hR, by omega, s2, hmid 0 (Nat.zero_le k), ?_⟩
  have e : ((k : Int) + 2 - 1).toNat = k + 1 := by omega
  rw [e]
  exact hlast

/-- C11, on `linspace(0, 10, 5)` over the rationals. -/
theorem linspace_endpoints_witness :
    ∃ R : MatType ℚ, linspace (scalar 0) (scalar 10) 5 = .ok R ∧ (R.size1 : Int) = 5 ∧
      R.size2 = 1 ∧ R.nz 0 0 = (scalar (0 : ℚ)).nz 0 0 ∧
      R.nz ((5 : Int) - 1).toNat 0 = (scalar (10 : ℚ)).nz 0 0 :=
  linspace_endpoints (scalar 0) (scalar 10) 5 (by decide) ⟨rfl, rfl⟩ ⟨rfl, rfl⟩

/-- C12: over a field of characteristic zero (the rationals), for scalars `a`,
`b` and `n ≥ 2`, sample `i` of `linspace a b n` is `a + i * step` with
`step = (b - a) / (n - 1)` for every `0 ≤ i ≤ n - 1`, so consecutive samples,
the last gap included, differ by `step`. -/
theorem linspace_samples [Field α] [CharZero α] (a b : MatType α)
    (n : Int) (hn : 2 ≤ n) (ha : a.size1 = 1 ∧ a.size2 = 1) (hb : b.size1 = 1 ∧ b.size2 = 1) :
    ∃ R : MatType α, linspace a b n = .ok R ∧ (R.size1 : Int) = n ∧ R.size2 = 1 ∧
      (∀ i : Nat, (i : Int) ≤ n - 1 →
        R.elem i 0 = a.elem 0 0 + (i : α) * ((b.elem 0 0 - a.elem 0 0) / ((n : α) - 1))) ∧
      (∀ i : Nat, (i : Int) + 1 ≤ n - 1 →
        R.elem (i + 1) 0 - R.elem i 0 = (b.elem 0 0 - a.elem 0 0) / ((n : α) - 1)) := by
  obtain ⟨k, rfl⟩ : ∃ k : Nat, n = (k : Int) + 2 := ⟨(n - 2).toNat, by omega⟩
  obtain ⟨R, hR, s1, s2, hmid, hlast⟩ := linspace_scalars_run a b k ha hb
  have hd : (((k : Int) + 2 - 1 : Int) : α) = (k : α) + 1 := by push_cast; ring
  have hd' : (((k : Int) + 2 : Int) : α) - 1 = (k : α) + 1 := by push_cast; ring
  have hk : (k : α) + 1 ≠ 0 := Nat.cast_add_one_ne_zero k
  have hval : ∀ i : Nat, (i : Int) ≤ (k : Int) + 2 - 1 →
      R.elem i 0 = a.elem 0 0 + (i : α) * ((b.elem 0 0 - a.elem 0 0) / ((k : α) + 1)) := by
    intro i hi
    by_cases hik : i ≤ k
    · rw [MatType.elem, hmid i hik]
      have := addStep_iterate_elem (stepMatrix a b ((k : Int) + 2 - 1)) a 0 0 i
      rw [MatType.elem] at this
      rw [this, stepMatrix_elem, hd]
    · have e : i = k + 1 := by omega
      subst e
      rw [MatType.elem, hlast]
      show b.elem 0 0 = _
      push_cast
      field_simp
  refine ⟨R, hR, by omega, s2, ?_, ?_⟩
  · intro i hi
    rw [hd']
    exact hval i hi
  · intro i hi
    rw [hd', hval (i + 1) (by omega), hval i (by omega)]
    push_cast
    ring

/-- C12, on `linspace(0, 10, 5) = [0, 5/2, 5, 15/2, 10]` over the rationals. -/
theorem linspace_samples_witness :
    ∃ R : MatType ℚ, linspace (scalar 0) (scalar 10) 5 = .ok R ∧ (R.size1 : Int) = 5 ∧
      R.size2 = 1 ∧ R.elem 0 0 = 0 ∧ R.elem 1 0 = 5 / 2 ∧ R.elem 2 0 = 5 ∧
      R.elem 3 0 = 15 / 2 ∧ R.elem 4 0 = 10 := by
  obtain ⟨R, hR, s1, s2, hval, -⟩ :=
    linspace_samples (scalar (0 : ℚ)) (scalar 10) 5 (by decide) ⟨rfl, rfl⟩ ⟨rfl, rfl⟩
  have v : ∀ i : Nat, (i : Int) ≤ 5 - 1 → R.elem i 0 = (i : ℚ) * (10 / 4) := by
    intro i hi
    rw [hval i hi]
    simp only [MatType.elem, scalar, Option.getD_some]
    norm_num
  refine ⟨R, hR, s1, s2, ?_, ?_, ?_, ?_, ?_⟩
  · rw [v 0 (by decide)]; norm_num
  · rw [v 1 (by decide)]; norm_num
  · rw [v 2 (by decide)]; norm_num
  · rw [v 3 (by decide)]; norm_num
  · rw [v 4 (by decide)]; norm_num

theorem list_sum_range_eq [AddCommMonoid α] (f : Nat → α) (n : Nat) :
    ((List.range n).map f).sum = ∑ k ∈ Finset.range n, f k := by
  induction n with
  | zero => simp
  | succ n ih => rw [List.range_succ, List.map_append, List.sum_append, ih,
      Finset.sum_range_succ]; simp

theorem mul_eq_ok [Zero α] [Add α] [Mul α] (x y : MatType α) (h : x.size2 = y.size1) :
    casadi.mul x y = .ok (mulResult x y) := by
  unfold casadi.mul
  rw [if_pos h]
  rfl

theorem mulResult_elem [Semiring α] (x y : MatType α) (i j : Nat) :
    (mulResult x y).elem i j = ∑ k ∈ Finset.range x.size2, x.elem i k * y.elem k j := by
  rw [← list_sum_range_eq]
  simp only [MatType.elem, mulResult]
  split
  · rfl
  · rename_i hany
    simp only [List.any_eq_true, not_exists, not_and, Bool.and_eq_true] at hany
    symm
    apply List.sum_eq_zero
    intro v hv
    obtain ⟨k, hk, rfl⟩ := List.mem_map.1 hv
    have := hany k hk
    cases hx : x.nz i k
    · simp
    · cases hy : y.nz k j
      · simp
      · simp [hx, hy] at this

theorem quad_form_run [Semiring α] (X A : MatType α)
    (hA : A.size1 = A.size2) (hX : A.size2 = X.size1) :
    quad_form X A = .ok (mulResult X.T (mulResult A X)) := by
  unfold quad_form
  rw [mul_eq_ok A X hX, bind_ok_eq]
  exact mul_eq_ok X.T (mulResult A X) (hX.symm.trans hA.symm)

/-- C14: for a square `A` and an `X` with as many rows, `quad_form X A` is the
matrix product `Xᵀ (A X)` and `quad_form X` is `Xᵀ X`; both succeed, with the
entries of these products, and `quad_form X` has the values of
`quad_form X I` for every identity `I` of size `rows(X)`. -/
theorem quad_form_spec [Semiring α] (X A : MatType α)
    (hA : A.size1 = A.size2) (hX : A.size2 = X.size1) :
    (∃ AX R : MatType α, casadi.mul A X = .ok AX ∧ casadi.mul X.T AX = .ok R ∧
      quad_form X A = .ok R ∧ R.size1 = X.size2 ∧ R.size2 = X.size2 ∧
      ∀ i j, R.elem i j = ∑ k ∈ Finset.range X.size1,
        X.elem k i * ∑ l ∈ Finset.range A.size2, A.elem k l * X.elem l j) ∧
    (∃ R : MatType α, casadi.mul X.T X = .ok R ∧ quad_form1 X = .ok R ∧
      R.size1 = X.size2 ∧ R.size2 = X.size2 ∧
      ∀ i j, R.elem i j = ∑ k ∈ Finset.range X.size1, X.elem k i * X.elem k j) ∧
    (∀ I : MatType α, isIdentity I X.size1 →
      ∃ R R' : MatType α, quad_form1 X = .ok R ∧ quad_form X I = .ok R' ∧
        R.sameValues R') := by
  have h1 : ∀ i j, (mulResult X.T X).elem i j
      = ∑ k ∈ Finset.range X.size1, X.elem k i * X.elem k j := by
    intro i j
    rw [mulResult_elem]
    rfl
  have h2 : ∀ (B : MatType α) (i j : Nat), (mulResult X.T (mulResult B X)).elem i j
      = ∑ k ∈ Finset.range X.size1,
          X.elem k i * ∑ l ∈ Finset.range B.size2, B.elem k l * X.elem l j := by
    intro B i j
    rw [mulResult_elem]
    apply Finset.sum_congr rfl
    intro k _
    rw [mulResult_elem]
    rfl
  refine ⟨?_, ?_, ?_⟩
  · exact ⟨mulResult A X, mulResult X.T (mulResult A X), mul_eq_ok A X hX,
      mul_eq_ok X.T (mulResult A X) (hX.symm.trans hA.symm), quad_form_run X A hA hX,
      rfl, rfl, h2 A⟩
  · exact ⟨mulResult X.T X, mul_eq_ok X.T X rfl, mul_eq_ok X.T X rfl, rfl, rfl, h1⟩
  · rintro I ⟨i1, i2, hI⟩
    refine ⟨mulResult X.T X, mulResult X.T (mulResult I X), mul_eq_ok X.T X rfl,
      quad_form_run X I (i1.trans i2.symm) i2, rfl, rfl, ?_⟩
    intro i _ j _
    rw [h1, h2]
    apply Finset.sum_congr rfl
    intro k hk
    have hk' : k < X.size1 := Finset.mem_range.1 hk
    have : ∑ l ∈ Finset.range I.size2, I.elem k l * X.elem l j = X.elem k j := by
      rw [i2]
      rw [Finset.sum_congr rfl (fun l hl => by
        rw [hI k hk' l (Finset.mem_range.1 hl)])]
      simp [hk']
    rw [this]

/-- C14, on `X = [5, 7]` and `A = [[1, ·], [2, 3]]`, and on the identity. -/
theorem quad_form_spec_witness :
    (quad_form ex21 exLower).toOption.map MatType.toLists = some [[some 242]] ∧
    (quad_form1 ex21).toOption.map MatType.toLists = some [[some 74]] ∧
    (quad_form ex21 exEye2).toOption.map MatType.toLists = some [[some 74]] ∧
    ∃ R R' : MatType Int, quad_form1 ex21 = .ok R ∧ quad_form ex21 exEye2 = .ok R' ∧
      R.sameValues R' :=
  ⟨by decide, by decide, by decide,
    (quad_form_spec ex21 exLower rfl rfl).2.2 exEye2
      ⟨rfl, rfl, by decide⟩⟩

/-- C15: `sum_square X` never fails; it is the full sum of the elementwise
product of `X` with itself, a `1 × 1` matrix whose value is the sum over all
positions `(i, j)` of `X(i, j)²`. -/
theorem sum_square_spec [Semiring α] (X : MatType α) :
    ∃ XX R : MatType α, X.mul X = .ok XX ∧ sum_square X = .ok R ∧ R = XX.sumAll ∧
      R.size1 = 1 ∧ R.size2 = 1 ∧
      R.elem 0 0 = ∑ i ∈ Finset.range X.size1, ∑ j ∈ Finset.range X.size2, X.elem i j ^ 2 := by
  have hmul : X.mul X = .ok (MatType.mk X.size1 X.size2 fun i j =>
      interEntry (· * ·) (X.nz i j) (X.nz i j)) := by
    unfold MatType.mul
    rw [if_pos ⟨rfl, rfl⟩]
  refine ⟨_, _, hmul, ?_, rfl, rfl, rfl, ?_⟩
  · unfold sum_square
    rw [hmul]
    rfl
  · simp only [MatType.elem, MatType.sumAll, Option.getD_some]
    rw [list_sum_range_eq]
    apply Finset.sum_congr rfl
    intro i _
    rw [list_sum_range_eq]
    apply Finset.sum_congr rfl
    intro j _
    cases X.nz i j <;> simp [MatType.interEntry, pow_two]

/-- C19: for a column vector `x` (shape `n × 1`), `quad_form x` is a `1 × 1`
matrix whose value is that of `sum_square x`. -/
theorem quad_form_column_eq_sum_square [Semiring α] (x : MatType α) (hx : x.size2 = 1) :
    ∃ Q S : MatType α, quad_form1 x = .ok Q ∧ sum_square x = .ok S ∧
      Q.size1 = 1 ∧ Q.size2 = 1 ∧ S.size1 = 1 ∧ S.size2 = 1 ∧
      Q.elem 0 0 = S.elem 0 0 := by
  have hmul : x.mul x = .ok (MatType.mk x.size1 x.size2 fun i j =>
      interEntry (· * ·) (x.nz i j) (x.nz i j)) := by
    unfold MatType.mul
    rw [if_pos ⟨rfl, rfl⟩]
  refine ⟨mulResult x.T x,
    MatType.sumAll (MatType.mk x.size1 x.size2 fun i j =>
      interEntry (· * ·) (x.nz i j) (x.nz i j)),
    mul_eq_ok x.T x rfl, ?_, hx, hx, rfl, rfl, ?_⟩
  · unfold sum_square
    rw [hmul]
    rfl
  · rw [mulResult_elem]
    simp only [MatType.elem, MatType.sumAll, Option.getD_some, MatType.T]
    rw [list_sum_range_eq]
    apply Finset.sum_congr rfl
    intro i _
    rw [hx]
    cases h : x.nz i 0 <;> simp [MatType.interEntry, h, List.range_succ]

/-- C19, on the column vector `[5, 7]`: both give `74`. -/
theorem quad_form_column_eq_sum_square_witness :
    (quad_form1 ex21).toOption.map MatType.toLists = some [[some 74]] ∧
    (sum_square ex21).toOption.map MatType.toLists = some [[some 74]] ∧
    ∃ Q S : MatType Int, quad_form1 ex21 = .ok Q ∧ sum_square ex21 = .ok S ∧
      Q.size1 = 1 ∧ Q.size2 = 1 ∧ S.size1 = 1 ∧ S.size2 = 1 ∧
      Q.elem 0 0 = S.elem 0 0 :=
  ⟨by decide, by decide, quad_form_column_eq_sum_square ex21 rfl⟩

/-! ## cross with an explicit dimension, orthogonality, and the two conversions -/

/-- C16, refuted on the code: with `dim = 1` a `2 × 3` pair passes the three
checks of `cross` (equal shapes, a dimension of length 3, a valid `dim`), yet
the rows `0, 1, 2` are sliced from a matrix with two rows, so the third slice
is out of range; and a `4 × 3` pair passes them and gives a `3 × 3` result,
not one of the shape of the input. -/
theorem cross_explicit_dim_unchecked :
    ((ex23a.size1 = ex23b.size1 ∧ ex23a.size2 = ex23b.size2) ∧
      (ex23a.size1 = 3 ∨ ex23a.size2 = 3) ∧ ((1 : Int) = -1 ∨ (1 : Int) = 1 ∨ (1 : Int) = 2) ∧
      ex23a.size1 = 2 ∧
      cross ex23a ex23b 1 = .error CasadiException.sliceOutOfBounds ∧
      ex23a.row 2 = .error CasadiException.sliceOutOfBounds) ∧
    ((ex43a.size1 = ex43b.size1 ∧ ex43a.size2 = ex43b.size2) ∧
      (ex43a.size1 = 3 ∨ ex43a.size2 = 3) ∧ ex43a.size1 = 4 ∧
      (cross ex43a ex43b 1).toOption.map MatType.toLists
        = some [[some 0, some (-8), some 6], [some 7, some 0, some (-3)],
                [some (-4), some 2, some 0]]) :=
  ⟨⟨⟨rfl, rfl⟩, Or.inr rfl, Or.inr (Or.inl rfl), rfl, rfl, rfl⟩,
    ⟨rfl, rfl⟩, Or.inr rfl, rfl, by decide⟩

theorem cross_vec3_comps [Ring α] (a b : MatType α)
    (h1 : a.size1 = b.size1) (h2 : a.size2 = b.size2)
    (hv : (a.size1 = 3 ∧ a.size2 = 1) ∨ (a.size1 = 1 ∧ a.size2 = 3)) :
    ∃ R : MatType α, cross a b (-1) = .ok R ∧
      R.comp 0 = a.comp 1 * b.comp 2 - a.comp 2 * b.comp 1 ∧
      R.comp 1 = a.comp 2 * b.comp 0 - a.comp 0 * b.comp 2 ∧
      R.comp 2 = a.comp 0 * b.comp 1 - a.comp 1 * b.comp 0 := by
  rcases hv with ⟨r3, c1⟩ | ⟨r1, c3⟩
  · obtain ⟨R, hR, s1, s2, hnz⟩ := cross_auto_rows a b h1 h2 r3
    obtain ⟨e0, e1, e2⟩ := hnz 0 (by omega)
    have rb : b.size1 = 3 := h1 ▸ r3
    refine ⟨R, hR, ?_, ?_, ?_⟩ <;>
      simp only [MatType.comp, s1, r3, rb, if_true, MatType.elem, e0, e1, e2, crossEntry_getD]
  · have n3 : a.size1 ≠ 3 := by omega
    obtain ⟨R, hR, s1, s2, hnz⟩ := cross_auto_cols a b h1 h2 n3 c3
    obtain ⟨e0, e1, e2⟩ := hnz 0 (by omega)
    have nb : b.size1 ≠ 3 := h1 ▸ n3
    have nR : R.size1 ≠ 3 := by omega
    refine ⟨R, hR, ?_, ?_, ?_⟩ <;>
      simp only [MatType.comp, nR, n3, nb, if_false, MatType.elem, e0, e1, e2, crossEntry_getD]

/-- C17: for 3-vectors `a`, `b` of equal shape over a commutative ring,
`c = cross a b` is orthogonal to both: `a1*c1 + a2*c2 + a3*c3 = 0` and
`b1*c1 + b2*c2 + b3*c3 = 0`; and `cross a a` is the zero vector. -/
theorem cross_orthogonal [CommRing α] (a b : MatType α)
    (h1 : a.size1 = b.size1) (h2 : a.size2 = b.size2)
    (hv : (a.size1 = 3 ∧ a.size2 = 1) ∨ (a.size1 = 1 ∧ a.size2 = 3)) :
    (∃ R : MatType α, cross a b (-1) = .ok R ∧
      a.comp 0 * R.comp 0 + a.comp 1 * R.comp 1 + a.comp 2 * R.comp 2 = 0 ∧
      b.comp 0 * R.comp 0 + b.comp 1 * R.comp 1 + b.comp 2 * R.comp 2 = 0) ∧
    (∃ Z : MatType α, cross a a (-1) = .ok Z ∧
      Z.comp 0 = 0 ∧ Z.comp 1 = 0 ∧ Z.comp 2 = 0) := by
  constructor
  · obtain ⟨R, hR, e0, e1, e2⟩ := cross_vec3_comps a b h1 h2 hv
    refine ⟨R, hR, ?_, ?_⟩
    · rw [e0, e1, e2]; ring
    · rw [e0, e1, e2]; ring
  · obtain ⟨Z, hZ, e0, e1, e2⟩ := cross_vec3_comps a a rfl rfl hv
    refine ⟨Z, hZ, ?_, ?_, ?_⟩
    · rw [e0]; ring
    · rw [e1]; ring
    · rw [e2]; ring

/-- C17, on the vectors `[1, 0, 0]` and `[0, 1, 0]`. -/
theorem cross_orthogonal_witness :
    (cross exE1 exE1 (-1)).toOption.map MatType.toLists
      = some [[some 0], [some 0], [some 0]] ∧
    (∃ R : MatType Int, cross exE1 exE2 (-1) = .ok R ∧
      exE1.comp 0 * R.comp 0 + exE1.comp 1 * R.comp 1 + exE1.comp 2 * R.comp 2 = 0 ∧
      exE2.comp 0 * R.comp 0 + exE2.comp 1 * R.comp 1 + exE2.comp 2 * R.comp 2 = 0) ∧
    (∃ Z : MatType Int, cross exE1 exE1 (-1) = .ok Z ∧
      Z.comp 0 = 0 ∧ Z.comp 1 = 0 ∧ Z.comp 2 = 0) :=
  ⟨by decide, cross_orthogonal exE1 exE2 rfl rfl (Or.inl ⟨rfl, rfl⟩)⟩

/-- C18: for a square `a` with no stored entry strictly above the diagonal,
the transpose of `a` is accepted by `triu2symm`, and `triu2symm` of the
transpose is `tril2symm a`: same shape and same entries, stored pattern
included. -/
theorem triu2symm_transpose [AddCommGroup α] (a : MatType α)
    (hsq : a.size1 = a.size2) (hup : a.noStrictUpper) :
    a.T.noStrictLower ∧
    ∃ R R' : MatType α, tril2symm a = .ok R ∧ triu2symm a.T = .ok R' ∧
      R.sameValues R' ∧ ∀ i < a.size1, ∀ j < a.size2, R.nz i j = R'.nz i j := by
  have hlo : a.T.noStrictLower := by
    intro i hi j hj hji
    exact hup j hj i hi hji
  obtain ⟨R, hR, s1, s2, hnz⟩ := symm_expr_ok a hsq
  obtain ⟨R', hR', s1', s2', hnz'⟩ := symm_expr_ok a.T hsq.symm
  have hent : ∀ i < a.size1, ∀ j < a.size2, R.nz i j = R'.nz i j := by
    intro i hi j hj
    have h' := hnz' i (by show i < a.size2; omega) j (by show j < a.size1; omega)
    simp only [MatType.T] at h'
    rw [hnz i hi j hj, h', unionEntry_add_comm (a.nz i j)]
  refine ⟨hlo, R, R', (tril2symm_eq_of_checks a hsq hup).trans hR,
    (triu2symm_eq_of_checks a.T hsq.symm hlo).trans hR', ⟨?_, ?_, ?_⟩, hent⟩
  · rw [s1, s1']
    exact hsq
  · rw [s2, s2']
    exact hsq.symm
  · intro i hi j hj
    rw [s1] at hi
    rw [s2] at hj
    simp only [MatType.elem, hent i hi j hj]

/-- C18, on the test matrix `[[1, ·], [2, 3]]` and its transpose. -/
theorem triu2symm_transpose_witness :
    (triu2symm exLower.T).toOption.map MatType.toLists
      = some [[some 1, some 2], [some 2, some 3]] ∧
    exLower.T.noStrictLower ∧
    ∃ R R' : MatType Int, tril2symm exLower = .ok R ∧ triu2symm exLower.T = .ok R' ∧
      R.sameValues R' ∧
      ∀ i < exLower.size1, ∀ j < exLower.size2, R.nz i j = R'.nz i j :=
  ⟨by decide, triu2symm_transpose exLower rfl (by unfold MatType.noStrictUpper; decide)⟩

end casadi
